import Mathlib

/-!
# Verification of the JsonSQL compiler (`src/jsonsql/jsonsql.py`)

This file is a shallow embedding of the JsonSQL whitelist-driven JSON-to-SQL
compiler.  Python values are modelled by the inductive type `PyVal`
(JSON-style data: string-keyed dictionaries, lists, tuples, strings,
integers, booleans and `None`).  Python exceptions (`TypeError`,
`KeyError`, `IndexError`, `AttributeError`) are modelled with the
`Except PyErr` monad; a Python function that falls off its end without
a `return` statement yields `Option.none` ("the function returned `None`").

Every definition below is translated from the Python source, statement by
statement, keeping the source's names (`logic_parse`, `sql_parse`,
`is_valid_comparison`, ...), its evaluation order, its short-circuiting,
and its dynamic-typing behaviour (including the places where the source
can raise).
-/

/-- Python exceptions that the modelled code can raise. -/
inductive PyErr where
  | typeError
  | keyError
  | indexError
  | attributeError
deriving DecidableEq

/-- Python runtime values, as they occur in the JsonSQL data flow:
JSON scalars and containers, plus tuples (used for parameter sequences)
and `None` (the sentinel stored for bare table names).  Dictionaries are
modelled with string keys (all dictionaries handled by the source are
JSON objects) as insertion-ordered association lists, matching CPython's
ordered dictionaries. -/
inductive PyVal where
  | none
  | bool (b : Bool)
  | int (n : Int)
  | str (s : String)
  | list (xs : List PyVal)
  | tuple (xs : List PyVal)
  | dict (entries : List (String × PyVal))

/-- The scalar kinds a column may be declared with in `allowed_columns`
(the spec's `ValueKind`: string, integer, float, boolean; the Python
source stores the corresponding `type` objects). -/
inductive ValueKind where
  | str
  | int
  | float
  | bool
deriving DecidableEq, Repr

/-- Result value actually returned by `logic_parse` / `sql_parse` when they
return: `(True, sql_text, params_tuple)` or `(False, reason)`. -/
inductive PyResult where
  | ok (sql : String) (params : List PyVal)
  | err (reason : String)

namespace PyVal

/-- Is this value a Python `dict`? (`isinstance(v, dict)`). -/
def isDict : PyVal → Bool
  | .dict _ => true
  | _ => false

/-- Is this value a Python `list`? (`isinstance(v, list)`). -/
def isList : PyVal → Bool
  | .list _ => true
  | _ => false

/-- Is this value a Python `str`? (`isinstance(v, str)`). -/
def isStr : PyVal → Bool
  | .str _ => true
  | _ => false

end PyVal

/-- An apostrophe character, used when rendering Python `repr` strings. -/
def pyQuote : String := String.singleton (Char.ofNat 39)

mutual
/-- Python `repr` of a value (as interpolated into f-strings for
non-string values).  String escaping inside `repr` is not modelled. -/
def pyRepr : PyVal → String
  | .none => "None"
  | .bool b => if b then "True" else "False"
  | .int n => toString n
  | .str s => pyQuote ++ s ++ pyQuote
  | .list xs => "[" ++ pyReprList xs ++ "]"
  | .tuple xs => "(" ++ pyReprList xs ++ (if xs.length == 1 then ",)" else ")")
  | .dict es => "\x7b" ++ pyReprEntries es ++ "\x7d"

/-- `repr` of list elements joined by a comma and space. -/
def pyReprList : List PyVal → String
  | [] => ""
  | [x] => pyRepr x
  | x :: rest => pyRepr x ++ ", " ++ pyReprList rest

/-- `repr` of dictionary entries joined by a comma and space. -/
def pyReprEntries : List (String × PyVal) → String
  | [] => ""
  | [(k, v)] => pyQuote ++ k ++ pyQuote ++ ": " ++ pyRepr v
  | (k, v) :: rest =>
      pyQuote ++ k ++ pyQuote ++ ": " ++ pyRepr v ++ ", " ++ pyReprEntries rest
end

/-- Python `str()` of a value, as interpolated into an f-string:
strings are rendered verbatim, every other value through its `repr`. -/
def pyStrOf : PyVal → String
  | .str s => s
  | v => pyRepr v

mutual
/-- Python `==` on the modelled values: numeric cross-type equality
between `bool` and `int` (`True == 1`), structural equality inside
containers, and `False` between values of unrelated types. -/
def pyEq : PyVal → PyVal → Bool
  | .none, .none => true
  | .bool a, .bool b => a == b
  | .bool a, .int n => (if a then (1 : Int) else 0) == n
  | .int n, .bool a => n == (if a then (1 : Int) else 0)
  | .int a, .int b => a == b
  | .str a, .str b => a == b
  | .list a, .list b => pyEqList a b
  | .tuple a, .tuple b => pyEqList a b
  | .dict a, .dict b => pyEqEntries a b
  | _, _ => false

/-- Elementwise `pyEq` on lists. -/
def pyEqList : List PyVal → List PyVal → Bool
  | [], [] => true
  | a :: as_, b :: bs => pyEq a b && pyEqList as_ bs
  | _, _ => false

/-- Entrywise `pyEq` on dictionary entries (insertion order respected;
all dictionaries compared by the source are either equal as ordered
records or unequal as values). -/
def pyEqEntries : List (String × PyVal) → List (String × PyVal) → Bool
  | [], [] => true
  | (ka, va) :: as_, (kb, vb) :: bs => ka == kb && pyEq va vb && pyEqEntries as_ bs
  | _, _ => false
end

/-- Python `len(v)`: defined for strings, lists, tuples and dictionaries;
`TypeError` otherwise. -/
def pyLen : PyVal → Except PyErr Nat
  | .str s => pure s.length
  | .list xs => pure xs.length
  | .tuple xs => pure xs.length
  | .dict es => pure es.length
  | _ => throw .typeError

/-- Python `list(v)`: characters of a string (as one-character strings),
elements of a list or tuple, keys of a dictionary; `TypeError` otherwise. -/
def pyListOf : PyVal → Except PyErr (List PyVal)
  | .str s => pure (s.data.map fun c => PyVal.str (String.singleton c))
  | .list xs => pure xs
  | .tuple xs => pure xs
  | .dict es => pure (es.map fun e => PyVal.str e.1)
  | _ => throw .typeError

/-- Python `list(v)[0]`: first element of the `list(...)` conversion,
`IndexError` when it is empty. -/
def pyFirst (v : PyVal) : Except PyErr PyVal := do
  match (← pyListOf v) with
  | [] => throw .indexError
  | x :: _ => pure x

/-- Python `tuple(v)` over an iterable, as used for parameter tuples. -/
def pyTuple : PyVal → Except PyErr (List PyVal)
  | v => pyListOf v

/-- Python `container[key]` for the shapes exercised by the source:
dictionary lookup by a string key (`KeyError` when missing), `TypeError`
when a string key indexes a list, tuple or string, and `TypeError` for
non-subscriptable values.  Non-string keys against a dictionary give
`KeyError` for hashable keys and `TypeError` for lists/dictionaries
(unhashable). -/
def pyGetItem (container : PyVal) (key : PyVal) : Except PyErr PyVal :=
  match container with
  | .dict es =>
      match key with
      | .str k =>
          match es.lookup k with
          | some v => pure v
          | Option.none => throw .keyError
      | .list _ => throw .typeError
      | .dict _ => throw .typeError
      | _ => throw .keyError
  | _ => throw .typeError

/-- Python `container[key]` with a string literal key. -/
def pyGetStr (container : PyVal) (key : String) : Except PyErr PyVal :=
  pyGetItem container (.str key)

/-- Is the first character list a leading run of the second? -/
def charsLeading : List Char → List Char → Bool
  | [], _ => true
  | _ :: _, [] => false
  | a :: as_, b :: bs => a == b && charsLeading as_ bs

/-- Does the first character list occur contiguously inside the second? -/
def charsContains (needle : List Char) : List Char → Bool
  | [] => charsLeading needle []
  | b :: t => charsLeading needle (b :: t) || charsContains needle t

/-- Python substring test `needle in hay` on strings. -/
def pySubstr (needle hay : String) : Bool :=
  charsContains needle.data hay.data

/-- Python `key in container` for a string key: key membership for
dictionaries, element equality for lists and tuples, substring test for
strings, `TypeError` otherwise. -/
def pyContains (container : PyVal) (key : String) : Except PyErr Bool :=
  match container with
  | .dict es => pure (es.any fun e => e.1 == key)
  | .list xs => pure (xs.any fun x => pyEq x (.str key))
  | .tuple xs => pure (xs.any fun x => pyEq x (.str key))
  | .str s => pure (pySubstr key s)
  | _ => throw .typeError

/-- Python `v in l` where `l` is a list of strings (the whitelists):
true iff `v` is a string equal to one of them. -/
def pyMemStrList (v : PyVal) (l : List String) : Bool :=
  match v with
  | .str s => l.contains s
  | _ => false

/-- Python `v in l` where `l` is a list of arbitrary values. -/
def pyMemValList (v : PyVal) (l : List PyVal) : Bool :=
  l.any fun x => pyEq v x

/-- `isinstance(v, valuetype)` for a declared column kind, including
CPython's `bool`-is-an-`int` subtyping. -/
def pyIsinstance (v : PyVal) (k : ValueKind) : Bool :=
  match k, v with
  | .str, .str _ => true
  | .int, .int _ => true
  | .int, .bool _ => true
  | .bool, .bool _ => true
  | _, _ => false

/-- Python `str.join`: `sep.join(xs)` over a list of strings. -/
def pyJoinStr (sep : String) : List String → String
  | [] => ""
  | [s] => s
  | s :: rest => s ++ sep ++ pyJoinStr sep rest

/-- Python `sep.join(values)` over a list of values: `TypeError` as soon
as a non-string element is encountered. -/
def pyJoinVals (sep : String) : List PyVal → Except PyErr String
  | [] => pure ""
  | [.str s] => pure s
  | .str s :: rest => do pure (s ++ sep ++ (← pyJoinVals sep rest))
  | _ => throw .typeError

/-! ## The policy (`JsonSQL.__init__`, lines 5-45) -/

/-- The JsonSQL policy object: the five whitelists stored by `__init__`.
`tables` is the normalized `ALLOWED_TABLES` dictionary (table name to
permitted-column list, where a bare table name is stored as `[None]`);
`columns` is `ALLOWED_COLUMNS` (column name to its declared scalar kind,
the spec's `ValueKind`). -/
structure Policy where
  queries : List String
  items : List String
  tables : List (String × List PyVal)
  connections : List String
  columns : List (String × ValueKind)

/-- `self.LOGICAL` (line 42). -/
def pyLOGICAL : List String := ["AND", "OR"]

/-- `self.COMPARISON` (line 43). -/
def pyCOMPARISON : List String := ["=", ">", "<", ">=", "<=", "<>", "!="]

/-- `self.SPECIAL_COMPARISON` (line 44). -/
def pySPECIAL : List String := ["BETWEEN", "IN"]

/-- `self.AGGREGATES` (line 45). -/
def pyAGGREGATES : List String := ["MIN", "MAX", "SUM", "AVG", "COUNT"]

/-- Python dictionary assignment `d[k] = v`: overwrite in place when the
key exists, append otherwise. -/
def dictAssign (k : String) (v : List PyVal) :
    List (String × List PyVal) → List (String × List PyVal)
  | [] => [(k, v)]
  | (k0, v0) :: rest =>
      if k0 == k then (k0, v) :: rest else (k0, v0) :: dictAssign k v rest

/-- The table-normalization loop of `__init__` (lines 23-34).  A
dictionary entry with a list value records that list; a dictionary entry
with a non-list value evaluates `allowed_tables[table]` - indexing the
argument list with a dictionary - and so raises `TypeError` (line 28);
a bare string records the `[None]` sentinel; anything else raises
`TypeError` (line 34). -/
def buildTableDict : List PyVal → Except PyErr (List (String × List PyVal))
  | [] => pure []
  | t :: rest =>
      match t with
      | .dict [] => throw .indexError
      | .dict ((k, .list cols) :: _) => do
          let d ← buildTableDict rest
          pure (dictAssign k cols d)
      | .dict ((_, _) :: _) => throw .typeError
      | .str s => do
          let d ← buildTableDict rest
          pure (dictAssign s [PyVal.none] d)
      | _ => throw .typeError

/-- `JsonSQL.__init__` (lines 5-45): builds the policy from the five
caller-supplied whitelists. -/
def jsonSQLInit (allowed_queries allowed_items : List String)
    (allowed_tables : List PyVal) (allowed_connections : List String)
    (allowed_columns : List (String × ValueKind)) : Except PyErr Policy := do
  let table_dict ← buildTableDict allowed_tables
  pure { queries := allowed_queries
         items := allowed_items
         tables := table_dict
         connections := allowed_connections
         columns := allowed_columns }

/-! The construction loop appends table entries in traversal order
(`table_dict[name] = ...`), so the normalized dictionary preserves the
order of the argument list; `dictAssign` reproduces CPython's
overwrite-in-place semantics for a repeated table name. -/

/-- Is `name` a key of `ALLOWED_COLUMNS`? -/
def isColumnName (p : Policy) (name : String) : Bool :=
  (p.columns.lookup name).isSome

/-- `ALLOWED_COLUMNS[name]` (raises `KeyError` when absent). -/
def columnKind (p : Policy) (name : String) : Except PyErr ValueKind :=
  match p.columns.lookup name with
  | some k => pure k
  | Option.none => throw .keyError

/-! ## The predicate validators (lines 47-192) -/

/-- `is_another_column` (lines 60-64): `value in self.ALLOWED_COLUMNS`
with `TypeError` (unhashable `value`) caught and turned into `False`.
Since the column dictionary is string-keyed, this is true exactly for a
string that names a declared column. -/
def is_another_column (p : Policy) (value : PyVal) : Bool :=
  match value with
  | .str s => isColumnName p s
  | _ => false

/-- `is_valid_aggregate` (lines 66-75): a dictionary whose first key is
an aggregate tag and whose first value is a declared column.  Reading
`list(aggregate)[0]` of an empty dictionary raises `IndexError`. -/
def is_valid_aggregate (p : Policy) (aggregate : PyVal) : Except PyErr Bool :=
  match aggregate with
  | .dict [] => throw .indexError
  | .dict ((operation, value) :: _) =>
      if ¬ pyAGGREGATES.contains operation then pure false
      else pure (is_another_column p value)
  | _ => pure false

/-- `is_valid_value` (lines 77-87): aggregates are validated as such,
a non-list value naming another column is always acceptable, and
otherwise the runtime type must match the declared kind. -/
def is_valid_value (p : Policy) (value : PyVal) (valuetype : ValueKind) :
    Except PyErr Bool := do
  if value.isDict then
    is_valid_aggregate p value
  else if ¬ value.isList ∧ is_another_column p value then
    pure true
  else
    pure (pyIsinstance value valuetype)

/-- The inner `all_values_allowed` of `is_special_comparison`
(lines 106-121): every list element must satisfy `is_valid_value`,
stopping at the first failure. -/
def all_values_allowed (p : Policy) (valuetype : ValueKind) :
    List PyVal → Except PyErr Bool
  | [] => pure true
  | x :: rest => do
      if ← is_valid_value p x valuetype then all_values_allowed p valuetype rest
      else pure false

/-- `is_special_comparison` (lines 89-132): `BETWEEN`/`IN` take a list
whose elements all pass `is_valid_value`; `BETWEEN` requires exactly two
elements and `IN` at least one. -/
def is_special_comparison (p : Policy) (comparator : PyVal) (value : PyVal)
    (valuetype : ValueKind) : Except PyErr Bool := do
  match value with
  | .list xs =>
      if ¬ (← all_values_allowed p valuetype xs) then pure false
      else if pyEq comparator (.str "BETWEEN") ∧ xs.length = 2 then pure true
      else if pyEq comparator (.str "IN") ∧ xs.length > 0 then pure true
      else pure false
  | _ => pure false

/-- `is_valid_comparison` (lines 134-162): the first key of the
comparison node must be a known comparator and its value must pass
`is_valid_value` for the column's declared kind or be a valid special
comparison.  `list(comparison)[0]` and `comparison[comparator]` raise
exactly as in Python for malformed nodes, and `self.ALLOWED_COLUMNS[column]`
raises `KeyError` for an undeclared column. -/
def is_valid_comparison (p : Policy) (column : String) (comparison : PyVal) :
    Except PyErr Bool := do
  let comparator ← pyFirst comparison
  if ¬ pyMemStrList comparator pyCOMPARISON ∧ ¬ pyMemStrList comparator pySPECIAL then
    pure false
  else
    let value ← pyGetItem comparison comparator
    let kind ← columnKind p column
    if ← is_valid_value p value kind then pure true
    else if ← is_special_comparison p comparator value kind then pure true
    else pure false

/-- `get_sql_comparator` (lines 164-175): the not-equal spelling `!=` is
replaced by `<>`; every other comparator is returned unchanged. -/
def get_sql_comparator (comparator : PyVal) : PyVal :=
  if pyEq comparator (.str "!=") then .str "<>" else comparator

/-- `is_value_in_allowed_categories` (lines 177-192). -/
def is_value_in_allowed_categories (p : Policy) (value : String) : Bool :=
  isColumnName p value || pyLOGICAL.contains value ||
    pySPECIAL.contains value || pyCOMPARISON.contains value

/-! ## The logic compiler (`logic_parse`, lines 194-317) -/

/-- Python `str(type)` for the declared column kinds, as interpolated in
`f"Bad {value}, non {self.ALLOWED_COLUMNS[value]}"`. -/
def kindRender : ValueKind → String
  | .str => "<class " ++ pyQuote ++ "str" ++ pyQuote ++ ">"
  | .int => "<class " ++ pyQuote ++ "int" ++ pyQuote ++ ">"
  | .float => "<class " ++ pyQuote ++ "float" ++ pyQuote ++ ">"
  | .bool => "<class " ++ pyQuote ++ "bool" ++ pyQuote ++ ">"

/-- The detailed failure message of lines 211-219, produced when
`value` is a declared column whose comparison failed validation: an
unknown comparator is named when the node is a dictionary whose first
key is outside both comparator sets, otherwise the message names the
column's declared type. -/
def badComparisonMsg (p : Policy) (value : String) (jv : PyVal) :
    Except PyErr (Option PyResult) := do
  let failInner ←
    if jv.isDict then do
      let value0 ← pyFirst jv
      pure (! pyMemStrList value0 pyCOMPARISON && ! pyMemStrList value0 pySPECIAL)
    else pure false
  if failInner then do
    let value0 ← pyFirst jv
    pure (some (.err ("Non Valid comparitor - " ++ pyStrOf value0)))
  else do
    let kind ← columnKind p value
    pure (some (.err ("Bad " ++ value ++ ", non " ++ kindRender kind)))

/-- The comparison-compilation branches of lines 222-284, entered once
`is_valid_comparison` has returned `True` at line 221: a comparator with
a plain scalar operand binds one placeholder (a tuple operand - dead for
scalar declared kinds - is passed through); a column-reference operand
and an aggregate operand are embedded with no parameter; `BETWEEN` and
`IN` bind `tuple(operand)`; any remaining comparator produces the
`Comparitor Error` result of line 284.  Every subscript and `list(...)`
conversion raises exactly as the source does. -/
def compileComparison (p : Policy) (value : String) (jv : PyVal) :
    Except PyErr (Option PyResult) := do
  let comparator ← pyFirst jv
  let adjusted := get_sql_comparator comparator
  let operand ← pyGetItem jv comparator
  if pyMemStrList comparator pyCOMPARISON ∧ ¬ is_another_column p operand ∧
      ¬ operand.isDict then
    let params := match operand with | .tuple xs => xs | v => [v]
    pure (some (.ok (value ++ " " ++ pyStrOf adjusted ++ " ?") params))
  else if pyMemStrList comparator pyCOMPARISON ∧ is_another_column p operand then
    pure (some (.ok (value ++ " " ++ pyStrOf adjusted ++ " " ++ pyStrOf operand) []))
  else do
    let firstOp ← pyFirst operand
    if pyMemStrList firstOp pyAGGREGATES then do
      let aggregate_function := firstOp
      let aggregate_argument ← pyGetItem operand aggregate_function
      pure (some (.ok (value ++ " " ++ pyStrOf adjusted ++ " " ++
        pyStrOf aggregate_function ++ "(" ++ pyStrOf aggregate_argument ++ ")") []))
    else if pyMemStrList comparator pySPECIAL then
      if pyEq comparator (.str "BETWEEN") then do
        let tup ← pyTuple operand
        pure (some (.ok (value ++ " BETWEEN ? AND ?") tup))
      else if pyEq comparator (.str "IN") then do
        let num_placeholders ← pyLen operand
        let placeholders :=
          if num_placeholders == 1 then "?"
          else pyJoinStr "," (List.replicate num_placeholders "?")
        let tup ← pyTuple operand
        pure (some (.ok (value ++ " IN (" ++ placeholders ++ ")") tup))
      else pure (some (.err ("Comparitor Error - " ++ pyStrOf comparator)))
    else pure (some (.err ("Comparitor Error - " ++ pyStrOf comparator)))

/-- Python `str.upper()` (ASCII range, which covers every connector the
source upper-cases). -/
def pyUpper (s : String) : String :=
  String.mk (s.data.map fun c =>
    if 97 ≤ c.toNat ∧ c.toNat ≤ 122 then Char.ofNat (c.toNat - 32) else c)

/-- Lines 303-317: flatten the children's parameter tuples in order and
join their fragments with the upper-cased connector, parenthesized. -/
def joinLogicalResults (value : String) (data : List (String × List PyVal)) :
    PyResult :=
  .ok ("(" ++ pyJoinStr (" " ++ pyUpper value ++ " ") (data.map Prod.fst) ++ ")")
    ((data.map Prod.snd).flatten)

mutual
/-- `logic_parse` (lines 194-317), translated statement by statement.

* An empty input returns `(False, "Nothing To Compute")`; a non-empty
  non-dictionary raises `AttributeError` at `json_input.keys()`.
* `value` is the first key.  The `if`/`elif` chain of lines 203-219 is
  reproduced exactly, including the second evaluation of
  `is_valid_comparison` at line 221 (which can raise `KeyError` when
  `value` is not a declared column).
* The comparison branches (lines 226-284, `compileComparison`) and the
  logical branch (lines 286-317, `processCases`/`joinLogicalResults`)
  mirror the source; falling past both yields `Option.none`: the Python
  function returns `None`. -/
def logic_parse (p : Policy) (json_input : PyVal) : Except PyErr (Option PyResult) :=
  match json_input with
  | .dict [] => pure (some (.err "Nothing To Compute"))
  | .dict ((value, jv) :: _) => do
      if ¬ is_value_in_allowed_categories p value then
        pure (some (.err ("Invalid Input - " ++ value)))
      else if pyLOGICAL.contains value ∧ ¬ jv.isList then
        pure (some (.err ("Bad " ++ value ++ ", non list")))
      else do
        let bad ←
          if isColumnName p value then do
            let valid1 ← is_valid_comparison p value jv
            pure (! valid1)
          else pure false
        if bad then badComparisonMsg p value jv
        else do
          let valid2 ← is_valid_comparison p value jv
          if valid2 then compileComparison p value jv
          else if pyLOGICAL.contains value ∧ jv.isList then
            match jv with
            | .list cases =>
                if cases.length < 2 then
                  pure (some (.err "Invalid boolean length, must be >= 2"))
                else do
                  match ← processCases p cases with
                  | .inl safe => pure (some safe)
                  | .inr data => pure (some (joinLogicalResults value data))
            | _ => pure Option.none
          else
            pure Option.none
  | other => do
      let n ← pyLen other
      if n == 0 then pure (some (.err "Nothing To Compute"))
      else throw .attributeError
termination_by (sizeOf json_input, 1)

/-- The child loop of the logical branch (lines 290-298): compile each
child in order, breaking at the first child whose result is falsy; a
child that returned `None` raises `TypeError` at `evaluation[0]`. -/
def processCases (p : Policy) (cs : List PyVal) :
    Except PyErr (Sum PyResult (List (String × List PyVal))) :=
  match cs with
  | [] => pure (.inr [])
  | c :: rest => do
      let evaluation ← logic_parse p c
      match evaluation with
      | Option.none => throw .typeError
      | some (.err m) => pure (.inl (.err m))
      | some (.ok s ps) => do
          match ← processCases p rest with
          | .inl f => pure (.inl f)
          | .inr tail => pure (.inr ((s, ps) :: tail))
termination_by (sizeOf cs, 0)
end

/-! ## The query compiler (`sql_parse`, lines 319-388) -/

/-- The `required_inputs` dictionary of line 323: field name, type
check, and the rendering of the expected type in the error message. -/
def requiredInputs : List (String × (PyVal → Bool) × String) :=
  [("query", PyVal.isStr, "<class " ++ pyQuote ++ "str" ++ pyQuote ++ ">"),
   ("items", PyVal.isList, "<class " ++ pyQuote ++ "list" ++ pyQuote ++ ">"),
   ("table", PyVal.isStr, "<class " ++ pyQuote ++ "str" ++ pyQuote ++ ">")]

/-- The required-input loop (lines 326-333): first missing or mistyped
field produces its failure message. -/
def checkRequired (json_input : PyVal) :
    List (String × (PyVal → Bool) × String) → Except PyErr (Option String)
  | [] => pure Option.none
  | (name, isTy, tyStr) :: rest => do
      if ! (← pyContains json_input name) then
        pure (some ("Missing argument " ++ name))
      else do
        let v ← pyGetStr json_input name
        if ! isTy v then pure (some (name ++ " not right type, expected " ++ tyStr))
        else checkRequired json_input rest

/-- `json_input["table"] not in self.ALLOWED_TABLES`: dictionary key
membership. -/
def tableMem (p : Policy) (v : PyVal) : Bool :=
  match v with
  | .str s => (p.tables.lookup s).isSome
  | _ => false

/-- `self.ALLOWED_TABLES[json_input["table"]]`.  The defaults are dead:
`sql_parse` reads this only after `tableMem` has succeeded, which forces
a string key present in the table dictionary. -/
def tableCols (p : Policy) (v : PyVal) : List PyVal :=
  match v with
  | .str s => (p.tables.lookup s).getD []
  | _ => []

/-- The item-validation loop of `sql_parse` (lines 342-365), including
the in-place rewrite of an accepted aggregate item (line 359).  Returns
the list as it stands when the loop ends - rewritten up to the point of
the first failure - together with the failure message, if any.  An item
that is an empty dictionary raises `IndexError` at `list(item)[0]`. -/
def itemsLoop (p : Policy) (tcols : List PyVal) :
    List PyVal → Except PyErr (List PyVal × Option String)
  | [] => pure ([], Option.none)
  | item :: rest => do
      if pyMemStrList item p.items || pyMemValList item tcols then do
        let (rest2, f) ← itemsLoop p tcols rest
        pure (item :: rest2, f)
      else
        match item with
        | .dict [] => throw .indexError
        | .dict ((k, arg) :: _) =>
            if pyAGGREGATES.contains k then
              if pyMemStrList arg p.items || pyMemValList arg tcols then do
                let newItem := PyVal.str (k ++ "(" ++ pyStrOf arg ++ ")")
                let (rest2, f) ← itemsLoop p tcols rest
                pure (newItem :: rest2, f)
              else pure (item :: rest, some ("Item not allowed - " ++ pyStrOf arg))
            else pure (item :: rest, some ("Item not allowed - " ++ pyStrOf item))
        | _ => pure (item :: rest, some ("Item not allowed - " ++ pyStrOf item))

/-- Store the mutated items list back into the request dictionary: the
source mutates `json_input["items"]` in place, so the value of the first
`"items"` entry is updated and everything else is untouched. -/
def setItemsEntries : List (String × PyVal) → List PyVal → List (String × PyVal)
  | [], _ => []
  | (k, v) :: rest, items2 =>
      if k == "items" then (k, .list items2) :: rest
      else (k, v) :: setItemsEntries rest items2

/-- The request dictionary after the item loop's in-place mutation. -/
def setItems : PyVal → List PyVal → PyVal
  | .dict es, items2 => .dict (setItemsEntries es items2)
  | other, _ => other

/-- `sql_parse` (lines 319-388), translated statement by statement.
The second component of a returned pair is the request object as left
behind by the call: the item loop mutates `json_input["items"]` in
place, and that mutation survives whether or not `sql_parse` later
fails.  When the call raises (models a Python exception) no result is
produced.

Notable faithful details: the `connection` whitelist is only checked
when the field is present (lines 367-371), yet line 382 reads
`json_input["connection"]` unconditionally once `logic` is present, so a
request with `logic` but no `connection` raises `KeyError`; and a child
`logic_parse` returning `None` makes `logic_string[0]` raise
`TypeError`. -/
def sql_parse (p : Policy) (json_input : PyVal) :
    Except PyErr (PyResult × PyVal) := do
  match ← checkRequired json_input requiredInputs with
  | some msg => pure (.err msg, json_input)
  | Option.none => do
    let q ← pyGetStr json_input "query"
    if ! pyMemStrList q p.queries then
      pure (.err ("Query not allowed - " ++ pyStrOf q), json_input)
    else do
      let tbl ← pyGetStr json_input "table"
      if ! tableMem p tbl then
        pure (.err ("Table not allowed - " ++ pyStrOf tbl), json_input)
      else do
        let itemsV ← pyGetStr json_input "items"
        match itemsV with
        | .list items => do
            let (items2, failure) ← itemsLoop p (tableCols p tbl) items
            let j2 := setItems json_input items2
            match failure with
            | some msg => pure (.err msg, j2)
            | Option.none => do
                let hasConn ← pyContains j2 "connection"
                let connBad ←
                  if hasConn then do
                    let c ← pyGetStr j2 "connection"
                    pure (! pyMemStrList c p.connections)
                  else pure false
                if connBad then do
                  let c ← pyGetStr j2 "connection"
                  pure (.err ("Connection not allowed - " ++ pyStrOf c), j2)
                else do
                  let itemsJoined ← pyJoinVals "," items2
                  let sql_string :=
                    pyStrOf q ++ " " ++ itemsJoined ++ " FROM " ++ pyStrOf tbl
                  if ← pyContains j2 "logic" then do
                    let lg ← pyGetStr j2 "logic"
                    let logic_string ← logic_parse p lg
                    match logic_string with
                    | Option.none => throw .typeError
                    | some (.err m) => pure (.err ("Logic Fail - " ++ m), j2)
                    | some (.ok lt lps) => do
                        let conn ← pyGetStr j2 "connection"
                        pure (.ok (sql_string ++ " " ++ pyStrOf conn ++ " " ++ lt) lps, j2)
                  else pure (.ok sql_string [], j2)
        | _ => throw .typeError

/-- State-threaded form of `logic_parse`: the method bodies of the
source contain no assignment to any `self` field (the policy attributes
are written only in `__init__`), so the faithful translation returns the
policy state unchanged alongside the result. -/
def logic_parse_state (p : Policy) (json_input : PyVal) :
    Except PyErr (Option PyResult) × Policy :=
  (logic_parse p json_input, p)

/-- State-threaded form of `sql_parse`: as for `logic_parse_state`, the
method writes no `self` field, so the policy component of the final
state is the input policy.  (The request object, by contrast, is
returned possibly mutated inside the result.) -/
def sql_parse_state (p : Policy) (json_input : PyVal) :
    Except PyErr (PyResult × PyVal) × Policy :=
  (sql_parse p json_input, p)

/-! ## Test fixtures: the Scenario A policy and request -/

/-- The Scenario A policy: queries `{SELECT}`, items `{*}`, tables
`{images: []}`, connections `{WHERE}`, columns
`{creature: str, userID: int}` - as normalized by `__init__`. -/
def scenarioPolicy : Policy :=
  { queries := ["SELECT"], items := ["*"], tables := [("images", [])],
    connections := ["WHERE"], columns := [("creature", .str), ("userID", .int)] }

/-- `JsonSQL(["SELECT"], ["*"], [{"images": []}], ["WHERE"], ...)` builds
exactly `scenarioPolicy`. -/
theorem scenarioPolicy_init :
    jsonSQLInit ["SELECT"] ["*"] [.dict [("images", .list [])]] ["WHERE"]
      [("creature", .str), ("userID", .int)] = .ok scenarioPolicy := rfl

/-- `{"creature": {"=": "owlbear"}}`. -/
def leafCreature : PyVal := .dict [("creature", .dict [("=", .str "owlbear")])]

/-- `{"userID": {"=": 555}}`. -/
def leafU555 : PyVal := .dict [("userID", .dict [("=", .int 555)])]

/-- `{"userID": {"=": 111}}`. -/
def leafU111 : PyVal := .dict [("userID", .dict [("=", .int 111)])]

/-- The `OR` node of Scenario A. -/
def orNode : PyVal := .dict [("OR", .list [leafU555, leafU111])]

/-- The full Scenario A logic tree. -/
def scenarioLogic : PyVal := .dict [("AND", .list [leafCreature, orNode])]

theorem ev_leafCreature : logic_parse scenarioPolicy leafCreature =
    pure (some (.ok "creature = ?" [.str "owlbear"])) := by
  unfold logic_parse; rfl

theorem ev_leafU555 : logic_parse scenarioPolicy leafU555 =
    pure (some (.ok "userID = ?" [.int 555])) := by
  unfold logic_parse; rfl

theorem ev_leafU111 : logic_parse scenarioPolicy leafU111 =
    pure (some (.ok "userID = ?" [.int 111])) := by
  unfold logic_parse; rfl

theorem ev_orNode : logic_parse scenarioPolicy orNode =
    pure (some (.ok "(userID = ? OR userID = ?)" [.int 555, .int 111])) := by
  have pc : processCases scenarioPolicy [leafU555, leafU111] =
      pure (.inr [("userID = ?", [.int 555]), ("userID = ?", [.int 111])]) := by
    unfold processCases
    rw [ev_leafU555]
    unfold processCases
    rw [ev_leafU111]
    unfold processCases
    rfl
  unfold orNode logic_parse
  simp only [pc]
  rfl

theorem ev_scenarioLogic : logic_parse scenarioPolicy scenarioLogic =
    pure (some (.ok "(creature = ? AND (userID = ? OR userID = ?))"
      [.str "owlbear", .int 555, .int 111])) := by
  have pc : processCases scenarioPolicy [leafCreature, orNode] =
      pure (.inr [("creature = ?", [.str "owlbear"]),
        ("(userID = ? OR userID = ?)", [.int 555, .int 111])]) := by
    unfold processCases
    rw [ev_leafCreature]
    unfold processCases
    rw [ev_orNode]
    unfold processCases
    rfl
  unfold scenarioLogic logic_parse
  simp only [pc]
  rfl

/-- The Scenario A request with the logic subtree left as a parameter. -/
def scenarioRequest (lg : PyVal) : PyVal :=
  .dict [("query", .str "SELECT"), ("items", .list [.str "*"]),
         ("table", .str "images"), ("connection", .str "WHERE"),
         ("logic", lg)]

/-- `sql_parse` on a Scenario A request reduces to its logic call: the
header validates and assembles `"SELECT * FROM images"` independently of
the logic subtree. -/
theorem sql_parse_scenario_step (lg : PyVal) :
    sql_parse scenarioPolicy (scenarioRequest lg) =
      (do
        let r ← logic_parse scenarioPolicy lg
        match r with
        | Option.none => throw PyErr.typeError
        | some (.err m) => pure (.err ("Logic Fail - " ++ m), scenarioRequest lg)
        | some (.ok lt lps) =>
            pure (.ok ("SELECT * FROM images WHERE " ++ lt) lps, scenarioRequest lg)) := by
  rfl

/-! ## Spec-side observations -/

/-- Number of placeholder characters in a SQL text. -/
def countQ (s : String) : Nat := s.data.count (Char.ofNat 63)

/-- C2: For the Scenario A policy (as built by `JsonSQL.__init__` from
`["SELECT"]`, `["*"]`, `[{"images": []}]`, `["WHERE"]`,
`{creature: str, userID: int}`), `sql_parse` on the Scenario A request
succeeds with SQL text
`"SELECT * FROM images WHERE (creature = ? AND (userID = ? OR userID = ?))"`
and parameter tuple `("owlbear", 555, 111)` in that order. -/
theorem claim_C2_scenario_a :
    jsonSQLInit ["SELECT"] ["*"] [.dict [("images", .list [])]] ["WHERE"]
      [("creature", .str), ("userID", .int)] = .ok scenarioPolicy ∧
    sql_parse scenarioPolicy (scenarioRequest scenarioLogic) =
      pure (.ok "SELECT * FROM images WHERE (creature = ? AND (userID = ? OR userID = ?))"
        [.str "owlbear", .int 555, .int 111], scenarioRequest scenarioLogic) := by
  refine ⟨rfl, ?_⟩
  rw [sql_parse_scenario_step, ev_scenarioLogic]
  rfl

/-- `{"=": {"x": 5}}`: the top-level key is a comparator, the inner key
is not, so every branch of `logic_parse` is skipped and the Python
function returns `None`. -/
def fallthroughInput : PyVal := .dict [("=", .dict [("x", .int 5)])]

/-- A well-formed request carrying `logic` but no `connection` field. -/
def reqNoConnection : PyVal :=
  .dict [("query", .str "SELECT"), ("items", .list [.str "*"]),
         ("table", .str "images"), ("logic", leafCreature)]

/-- `sql_parse` on a no-connection Scenario A request: once the logic
compiles, line 382 reads `json_input["connection"]` and raises
`KeyError`. -/
theorem sql_parse_noconn_step (lg : PyVal) :
    sql_parse scenarioPolicy
      (.dict [("query", .str "SELECT"), ("items", .list [.str "*"]),
              ("table", .str "images"), ("logic", lg)]) =
      (do
        let r ← logic_parse scenarioPolicy lg
        match r with
        | Option.none => throw PyErr.typeError
        | some (.err m) =>
            pure (.err ("Logic Fail - " ++ m),
              .dict [("query", .str "SELECT"), ("items", .list [.str "*"]),
                     ("table", .str "images"), ("logic", lg)])
        | some (.ok _ _) => throw PyErr.keyError) := by
  rfl

/-- C3 (failing inputs): `logic_parse` on `{"=": {"x": 5}}` produces no
result at all (the Python function returns `None`, against its own
declared return type), and `sql_parse` on a valid request that carries
`logic` but no `connection` raises `KeyError` at line 382 instead of
returning a failure pair. -/
theorem claim_C3_failing_inputs :
    logic_parse scenarioPolicy fallthroughInput = pure Option.none ∧
    sql_parse scenarioPolicy reqNoConnection = .error .keyError := by
  constructor
  · unfold fallthroughInput logic_parse
    rfl
  · show sql_parse scenarioPolicy
      (.dict [("query", .str "SELECT"), ("items", .list [.str "*"]),
              ("table", .str "images"), ("logic", leafCreature)]) = .error .keyError
    rw [sql_parse_noconn_step, ev_leafCreature]
    rfl

/-- A request whose only item is the declared column `creature`, against
the Scenario A policy whose `images` table has an empty permitted-column
list. -/
def emptyColsRequest : PyVal :=
  .dict [("query", .str "SELECT"), ("items", .list [.str "creature"]),
         ("table", .str "images")]

/-- C5 (counterexample): with table `images` registered with an empty
permitted-column list and `creature` a declared column, `sql_parse`
rejects `creature` as an items entry: an empty per-table list does not
admit declared columns. -/
theorem claim_C5_counterexample :
    sql_parse scenarioPolicy emptyColsRequest =
      pure (.err "Item not allowed - creature", emptyColsRequest) := by
  rfl

/-- Policy for the aggregate-mutation counterexample: items `{*, userID}`,
bare table `images`. -/
def aggregatePolicy : Policy :=
  { queries := ["SELECT"], items := ["*", "userID"], tables := [("images", [.none])],
    connections := [], columns := [] }

/-- Request whose items list holds the aggregate node `{"COUNT": "userID"}`. -/
def aggregateRequest : PyVal :=
  .dict [("query", .str "SELECT"),
         ("items", .list [.dict [("COUNT", .str "userID")]]),
         ("table", .str "images")]

/-- The same request object after `sql_parse` has rewritten the
aggregate item in place. -/
def aggregateRequestAfter : PyVal :=
  .dict [("query", .str "SELECT"),
         ("items", .list [.str "COUNT(userID)"]),
         ("table", .str "images")]

/-- C6 (counterexample): `sql_parse` mutates the request - the aggregate
item is rewritten to `"COUNT(userID)"` in place - and the second call on
the same (now rewritten) request object fails where the first succeeded. -/
theorem claim_C6_counterexample :
    sql_parse aggregatePolicy aggregateRequest =
      pure (.ok "SELECT COUNT(userID) FROM images" [], aggregateRequestAfter) ∧
    sql_parse aggregatePolicy aggregateRequestAfter =
      pure (.err "Item not allowed - COUNT(userID)", aggregateRequestAfter) :=
  ⟨rfl, rfl⟩

/-- C7 (failing inputs): a logical node with an empty child list raises
`IndexError` (inside `is_valid_comparison`, at `list(comparison)[0]`,
called from line 221) instead of returning the invalid-length failure
that lines 287-288 intend; a one-child list does reach that check and
fails as data. -/
theorem claim_C7_failing_inputs :
    logic_parse scenarioPolicy (.dict [("AND", .list [])]) = .error .indexError ∧
    logic_parse scenarioPolicy (.dict [("OR", .list [])]) = .error .indexError ∧
    logic_parse scenarioPolicy (.dict [("AND", .list [leafCreature])]) =
      pure (some (.err "Invalid boolean length, must be >= 2")) := by
  refine ⟨?_, ?_, ?_⟩ <;> (unfold logic_parse; rfl)

/-- `{"creature": {"BETWEEN": "abc"}}`: a type-correct string operand
under `BETWEEN`. -/
def betweenStringInput : PyVal := .dict [("creature", .dict [("BETWEEN", .str "abc")])]

/-- C1 (counterexample): a string operand under `BETWEEN` passes
validation (`isinstance("abc", str)`), and line 264's
`tuple(json_input[value][comparator])` explodes it into its characters:
the compilation succeeds with two placeholders but three parameters. -/
theorem claim_C1_counterexample :
    logic_parse scenarioPolicy betweenStringInput =
      pure (some (.ok "creature BETWEEN ? AND ?" [.str "a", .str "b", .str "c"])) ∧
    countQ "creature BETWEEN ? AND ?" = 2 ∧
    [PyVal.str "a", .str "b", .str "c"].length = 3 := by
  refine ⟨?_, by decide, rfl⟩
  unfold betweenStringInput logic_parse
  rfl

/-- `{"creature": {"=": "FROM"}}`: the literal operand is the string
`"FROM"`. -/
def fromLeaf : PyVal := .dict [("creature", .dict [("=", .str "FROM")])]

theorem ev_fromLeaf : logic_parse scenarioPolicy fromLeaf =
    pure (some (.ok "creature = ?" [.str "FROM"])) := by
  unfold fromLeaf logic_parse
  rfl

/-- C4 (counterexample): the bound literal operand `"FROM"` is a textual
substring of the successful SQL text (which contains the fixed `FROM`
keyword), even though it was correctly bound as a parameter. -/
theorem claim_C4_counterexample :
    sql_parse scenarioPolicy (scenarioRequest fromLeaf) =
      pure (.ok "SELECT * FROM images WHERE creature = ?" [.str "FROM"],
        scenarioRequest fromLeaf) ∧
    pySubstr "FROM" "SELECT * FROM images WHERE creature = ?" = true := by
  constructor
  · rw [sql_parse_scenario_step, ev_fromLeaf]
    rfl
  · rfl

/-! ## Arity rules for the special comparisons (claim C8) -/

theorem isinstance_list_false (xs : List PyVal) (k : ValueKind) :
    pyIsinstance (.list xs) k = false := by cases k <;> rfl

/-- A list operand never matches a declared scalar kind. -/
theorem is_valid_value_list (p : Policy) (xs : List PyVal) (k : ValueKind) :
    is_valid_value p (.list xs) k = pure false := by
  simp [is_valid_value, PyVal.isDict, PyVal.isList, isinstance_list_false]

/-- `is_valid_comparison` on `{c: {"BETWEEN": xs}}` reduces to the
element check plus the exact-arity-2 test. -/
theorem ivc_between_eq (p : Policy) (c : String) (k : ValueKind)
    (hc : p.columns.lookup c = some k) (xs : List PyVal) :
    is_valid_comparison p c (.dict [("BETWEEN", .list xs)]) =
      (do
        let b ← all_values_allowed p k xs
        pure (b && decide (xs.length = 2))) := by
  simp [is_valid_comparison, pyFirst, pyListOf, pyMemStrList, pyGetItem, columnKind, hc,
        is_valid_value_list, is_special_comparison, pyEq]
  cases hav : all_values_allowed p k xs with
  | error e => rfl
  | ok b =>
      cases b with
      | true =>
          by_cases h2 : xs.length = 2 <;> (simp [h2, pyCOMPARISON, pySPECIAL]; try rfl)
      | false => simp [pyCOMPARISON, pySPECIAL]; rfl

/-- `is_valid_comparison` on `{c: {"IN": xs}}` reduces to the element
check plus the nonempty test. -/
theorem ivc_in_eq (p : Policy) (c : String) (k : ValueKind)
    (hc : p.columns.lookup c = some k) (xs : List PyVal) :
    is_valid_comparison p c (.dict [("IN", .list xs)]) =
      (do
        let b ← all_values_allowed p k xs
        pure (b && decide (0 < xs.length))) := by
  simp [is_valid_comparison, pyFirst, pyListOf, pyMemStrList, pyGetItem, columnKind, hc,
        is_valid_value_list, is_special_comparison, pyEq]
  cases hav : all_values_allowed p k xs with
  | error e => rfl
  | ok b =>
      cases b with
      | true =>
          by_cases h1 : 0 < xs.length <;>
            (simp [h1, pyCOMPARISON, pySPECIAL, Nat.pos_iff_ne_zero]; try rfl)
      | false => simp [pyCOMPARISON, pySPECIAL]; rfl

/-- `BETWEEN` with a list operand of length other than 2 never compiles
successfully (it fails validation; depending on the elements the failure
is a data failure or a raised exception, never a success). -/
theorem between_wrong_arity_fails (p : Policy) (c : String) (k : ValueKind)
    (hc : p.columns.lookup c = some k)
    (xs : List PyVal) (hlen : xs.length ≠ 2) (t : String) (ps : List PyVal) :
    logic_parse p (.dict [(c, .dict [("BETWEEN", .list xs)])]) ≠
      pure (some (.ok t ps)) := by
  have hcol : isColumnName p c = true := by simp [isColumnName, hc]
  unfold logic_parse
  by_cases hcl : c ∈ pyLOGICAL
  · simp [is_value_in_allowed_categories, hcol, hcl, PyVal.isList, pure, Except.pure]
  · simp only [is_value_in_allowed_categories, hcol, Bool.true_or, hcl,
      ivc_between_eq p c k hc xs]
    cases hav : all_values_allowed p k xs with
    | error e => simp [hav, hcol, hcl, PyVal.isList, bind, Except.bind, pure, Except.pure]
    | ok b =>
        simp [hav, hcol, hcl, PyVal.isList, hlen, badComparisonMsg, pyFirst, pyListOf,
          pyMemStrList, pySPECIAL, pyCOMPARISON, columnKind, hc, PyVal.isDict,
          bind, Except.bind, pure, Except.pure]

/-- `IN` with an empty operand list always fails as data. -/
theorem in_empty_fails (p : Policy) (c : String) (k : ValueKind)
    (hc : p.columns.lookup c = some k) :
    ∃ r, logic_parse p (.dict [(c, .dict [("IN", .list [])])]) =
      pure (some (.err r)) := by
  have hcol : isColumnName p c = true := by simp [isColumnName, hc]
  by_cases hcl : c ∈ pyLOGICAL
  · refine ⟨"Bad " ++ c ++ ", non list", ?_⟩
    unfold logic_parse
    simp [is_value_in_allowed_categories, hcol, hcl, PyVal.isList]
  · refine ⟨"Bad " ++ c ++ ", non " ++ kindRender k, ?_⟩
    unfold logic_parse
    have hav : all_values_allowed p k ([] : List PyVal) = pure true := rfl
    simp [is_value_in_allowed_categories, hcol, hcl, PyVal.isList,
      ivc_in_eq p c k hc, hav, badComparisonMsg, pyFirst, pyListOf,
      pyMemStrList, pySPECIAL, pyCOMPARISON, columnKind, hc, PyVal.isDict,
      bind, Except.bind, pure, Except.pure]

/-- A successful `IN` with a one-element operand list produces exactly
the text `c IN (?)` with that element as the single bound parameter. -/
theorem in_singleton_shape (p : Policy) (c : String) (k : ValueKind)
    (hc : p.columns.lookup c = some k) (x : PyVal) (t : String) (ps : List PyVal)
    (hs : logic_parse p (.dict [(c, .dict [("IN", .list [x])])]) =
      pure (some (.ok t ps))) :
    t = c ++ " IN (?)" ∧ ps = [x] := by
  have hcol : isColumnName p c = true := by simp [isColumnName, hc]
  by_cases hcl : c ∈ pyLOGICAL
  · unfold logic_parse at hs
    simp [is_value_in_allowed_categories, hcol, hcl, PyVal.isList, pure, Except.pure] at hs
  · unfold logic_parse at hs
    simp only [is_value_in_allowed_categories, hcol, Bool.true_or, hcl,
      ivc_in_eq p c k hc] at hs
    cases hav : all_values_allowed p k [x] with
    | error e =>
        rw [hav] at hs
        simp [hcol, hcl, PyVal.isList, bind, Except.bind, pure, Except.pure] at hs
    | ok b =>
        rw [hav] at hs
        cases b with
        | false =>
            simp [hcol, hcl, PyVal.isList, badComparisonMsg, pyFirst, pyListOf,
              pyMemStrList, pySPECIAL, pyCOMPARISON, columnKind, hc, PyVal.isDict,
              bind, Except.bind, pure, Except.pure] at hs
        | true =>
            simp only [hcol, if_true, Bool.true_and] at hs
            have h1 : pyMemStrList (PyVal.str "IN") pyCOMPARISON = false := rfl
            have h2 : pyMemStrList (PyVal.str "IN") pySPECIAL = true := rfl
            have h3 : pyEq (PyVal.str "IN") (PyVal.str "!=") = false := rfl
            have h4 : pyEq (PyVal.str "IN") (PyVal.str "BETWEEN") = false := rfl
            have h5 : pyEq (PyVal.str "IN") (PyVal.str "IN") = true := rfl
            cases hagg : pyMemStrList x pyAGGREGATES with
            | true =>
                unfold compileComparison at hs
                simp [pyFirst, pyListOf, pyGetItem, hagg, h1, h2, h3, h4, h5,
                  hcl, PyVal.isList, is_another_column,
                  bind, Except.bind, pure, Except.pure] at hs
            | false =>
                unfold compileComparison at hs
                simp [pyFirst, pyListOf, pyGetItem, hagg, h1, h2, h3, h4, h5,
                  hcl, PyVal.isList, is_another_column, get_sql_comparator,
                  pyLen, pyTuple, pyStrOf,
                  bind, Except.bind, pure, Except.pure] at hs
                have hfold : c ++ " IN (" ++ "?" ++ ")" = c ++ " IN (?)" := by
                  simp [String.append_assoc]
                exact ⟨hfold ▸ hs.1.symm, hs.2.symm⟩

/-- C8: for every policy and declared column, a `BETWEEN` comparison
whose operand list does not have exactly 2 elements never succeeds; an
`IN` comparison with an empty operand list fails as data; and a
successful `IN` comparison with a one-element operand list produces
exactly one `?` placeholder binding that element. -/
theorem claim_C8_special_arity (p : Policy) (c : String) (k : ValueKind)
    (hc : p.columns.lookup c = some k) :
    (∀ (xs : List PyVal) (t : String) (ps : List PyVal), xs.length ≠ 2 →
      logic_parse p (.dict [(c, .dict [("BETWEEN", .list xs)])]) ≠
        pure (some (.ok t ps))) ∧
    (∃ r, logic_parse p (.dict [(c, .dict [("IN", .list [])])]) =
      pure (some (.err r))) ∧
    (∀ (x : PyVal) (t : String) (ps : List PyVal),
      logic_parse p (.dict [(c, .dict [("IN", .list [x])])]) =
        pure (some (.ok t ps)) →
      t = c ++ " IN (?)" ∧ ps = [x]) :=
  ⟨fun xs t ps hlen => between_wrong_arity_fails p c k hc xs hlen t ps,
   in_empty_fails p c k hc,
   fun x t ps hs => in_singleton_shape p c k hc x t ps hs⟩

/-- Witness for C8 at the Scenario A policy and column `userID`. -/
theorem claim_C8_special_arity_witness :
    (logic_parse scenarioPolicy
        (.dict [("userID", .dict [("BETWEEN", .list [.int 1])])]) ≠
      pure (some (.ok "userID BETWEEN ? AND ?" [.int 1]))) ∧
    (∃ r, logic_parse scenarioPolicy
        (.dict [("userID", .dict [("IN", .list [])])]) =
      pure (some (.err r))) ∧
    (logic_parse scenarioPolicy (.dict [("userID", .dict [("IN", .list [.int 7])])]) =
        pure (some (.ok "userID IN (?)" [.int 7])) →
      "userID IN (?)" = "userID" ++ " IN (?)" ∧ [PyVal.int 7] = [PyVal.int 7]) := by
  have h := claim_C8_special_arity scenarioPolicy "userID" .int rfl
  exact ⟨h.1 [.int 1] "userID BETWEEN ? AND ?" [.int 1] (by decide),
         h.2.1,
         fun hsucc => h.2.2 (.int 7) "userID IN (?)" [.int 7] hsucc⟩

/-! ## Column-name collision in scalar operands (claim C10) -/

/-- A policy that declares a column literally named `AND`. -/
def andColumnPolicy : Policy :=
  { queries := [], items := [], tables := [], connections := [],
    columns := [("AND", .str), ("x", .str)] }

/-- C10 (counterexample): with a declared column named `AND`, the
comparison `{"AND": {"=": "x"}}` - a known column, a simple comparator,
and a string operand naming another column - does not succeed at all:
line 206 sees the connector name first and fails with `Bad AND, non
list`. -/
theorem claim_C10_counterexample :
    logic_parse andColumnPolicy (.dict [("AND", .dict [("=", .str "x")])]) =
      pure (some (.err "Bad AND, non list")) := by
  unfold logic_parse
  rfl

/-- C10 (amended): for every declared column `c` that is not named like
a logical connector, every simple comparator and every string operand
that names a declared column, `logic_parse` succeeds and embeds the
operand as an unquoted column reference with an empty parameter tuple -
even when the operand would also have been a type-correct literal. -/
theorem claim_C10_amended (p : Policy) (c op v : String) (k : ValueKind)
    (hc : p.columns.lookup c = some k)
    (hcl : c ∉ pyLOGICAL)
    (hop : op ∈ pyCOMPARISON)
    (hv : isColumnName p v = true) :
    logic_parse p (.dict [(c, .dict [(op, .str v)])]) =
      pure (some (.ok (c ++ " " ++ (if op = "!=" then "<>" else op) ++ " " ++ v) [])) := by
  have hcol : isColumnName p c = true := by simp [isColumnName, hc]
  have hval : is_valid_comparison p c (.dict [(op, .str v)]) = pure true := by
    simp [is_valid_comparison, pyFirst, pyListOf, pyMemStrList, hop, pyGetItem,
      columnKind, hc, is_valid_value, is_another_column, hv, PyVal.isDict, PyVal.isList]
  unfold logic_parse
  simp only [is_value_in_allowed_categories, hcol, Bool.true_or, hval]
  simp [compileComparison, pyFirst, pyListOf, pyGetItem, pyMemStrList, hop, hcl,
    is_another_column, hv, PyVal.isDict, get_sql_comparator, pyEq, pyStrOf]
  by_cases hne : op = "!=" <;> simp [hne]

/-- Witness for the amended C10: `creature != userID` at the Scenario A
policy, where the operand `userID` collides with the declared column and
the declared kind of `creature` is `str` (so `"userID"` would also be a
type-correct literal). -/
theorem claim_C10_amended_witness :
    logic_parse scenarioPolicy (.dict [("creature", .dict [("!=", .str "userID")])]) =
      pure (some (.ok ("creature" ++ " " ++
        (if ("!=" : String) = "!=" then "<>" else "!=") ++ " " ++ "userID") [])) :=
  claim_C10_amended scenarioPolicy "creature" "!=" "userID" .str rfl
    (by decide) (by decide) rfl

/-! ## Item whitelisting for tables with empty column lists (claim C5) -/

/-- C5 (amended): with a table registered with an empty permitted-column
list, an items entry not in `allowed_items` is rejected - `sql_parse`
never consults `allowed_columns` for items, so declared columns gain no
access. -/
theorem claim_C5_amended (p : Policy) (q t c : String)
    (hq : q ∈ p.queries) (ht : p.tables.lookup t = some [])
    (hcnot : c ∉ p.items) :
    sql_parse p (.dict [("query", .str q), ("items", .list [.str c]),
        ("table", .str t)]) =
      pure (.err ("Item not allowed - " ++ c),
        .dict [("query", .str q), ("items", .list [.str c]), ("table", .str t)]) := by
  have hreq : checkRequired
      (.dict [("query", .str q), ("items", .list [.str c]), ("table", .str t)])
      requiredInputs = pure Option.none := rfl
  unfold sql_parse
  rw [hreq]
  simp [pyGetStr, pyGetItem, List.lookup, pyMemStrList, hq, tableMem, ht, tableCols,
    itemsLoop, pyMemValList, hcnot, setItems, setItemsEntries, pyStrOf,
    bind, Except.bind, pure, Except.pure]

/-- Witness for the amended C5: the Scenario A policy rejects the
declared column `creature` as an items entry for table `images`. -/
theorem claim_C5_amended_witness :
    ("SELECT" ∈ scenarioPolicy.queries) ∧
    scenarioPolicy.tables.lookup "images" = some [] ∧
    ("creature" ∉ scenarioPolicy.items) ∧
    sql_parse scenarioPolicy (.dict [("query", .str "SELECT"),
        ("items", .list [.str "creature"]), ("table", .str "images")]) =
      pure (.err ("Item not allowed - " ++ "creature"),
        .dict [("query", .str "SELECT"), ("items", .list [.str "creature"]),
               ("table", .str "images")]) :=
  ⟨by decide, rfl, by decide,
   claim_C5_amended scenarioPolicy "SELECT" "images" "creature" (by decide) rfl (by decide)⟩

/-! ## Mutation of the request by `sql_parse` (claim C6) -/

/-- No entry of the request's items list is a dictionary (no aggregate
node). -/
def itemsAllPlain (j : PyVal) : Bool :=
  match j with
  | .dict es =>
      match es.lookup "items" with
      | some (.list xs) => xs.all fun x => ! x.isDict
      | _ => true
  | _ => true

/-- The item loop leaves a dictionary-free items list unchanged. -/
theorem itemsLoop_plain (p : Policy) (tcols : List PyVal) (xs : List PyVal)
    (hplain : ∀ x ∈ xs, x.isDict = false) :
    ∃ f, itemsLoop p tcols xs = pure (xs, f) := by
  induction xs with
  | nil => exact ⟨Option.none, rfl⟩
  | cons x rest ih =>
      have hx : x.isDict = false := hplain x (by simp)
      obtain ⟨f, hf⟩ := ih (fun y hy => hplain y (by simp [hy]))
      by_cases hmem : (pyMemStrList x p.items || pyMemValList x tcols) = true
      · refine ⟨f, ?_⟩
        unfold itemsLoop
        simp [hmem, hf, bind, Except.bind, pure, Except.pure]
      · refine ⟨some ("Item not allowed - " ++ pyStrOf x), ?_⟩
        unfold itemsLoop
        cases x <;> simp_all [PyVal.isDict, bind, Except.bind, pure, Except.pure]

/-- Writing back the value the `"items"` entry already holds is the
identity on the entry list. -/
theorem setItemsEntries_self (es : List (String × PyVal)) (xs : List PyVal)
    (h : es.lookup "items" = some (.list xs)) : setItemsEntries es xs = es := by
  induction es with
  | nil => simp [List.lookup] at h
  | cons e rest ih =>
      obtain ⟨k, v⟩ := e
      by_cases hk : ("items" : String) = k
      · subst hk
        simp [List.lookup] at h
        simp [setItemsEntries, h]
      · have hk2 : (("items" : String) == k) = false := by simp [hk]
        simp [List.lookup, hk2] at h
        have hk3 : (k == ("items" : String)) = false := by
          cases hbe : k == ("items" : String) with
          | true =>
              have : k = "items" := by simpa using hbe
              exact absurd this.symm hk
          | false => rfl
        simp [setItemsEntries, hk3, ih h]

/-- A successful string-keyed subscript forces a dictionary shape. -/
theorem pyGetStr_ok_dict (j : PyVal) (k : String) (v : PyVal)
    (h : pyGetStr j k = .ok v) : ∃ es, j = .dict es ∧ es.lookup k = some v := by
  cases j with
  | dict es =>
      refine ⟨es, rfl, ?_⟩
      simp [pyGetStr, pyGetItem] at h
      cases hl : es.lookup k with
      | some w => rw [hl] at h; simpa [pure, Except.pure] using h
      | none => rw [hl] at h; simp [throw, throwThe, MonadExceptOf.throw] at h
  | none => simp [pyGetStr, pyGetItem, throw, throwThe, MonadExceptOf.throw] at h
  | bool b => simp [pyGetStr, pyGetItem, throw, throwThe, MonadExceptOf.throw] at h
  | int n => simp [pyGetStr, pyGetItem, throw, throwThe, MonadExceptOf.throw] at h
  | str s => simp [pyGetStr, pyGetItem, throw, throwThe, MonadExceptOf.throw] at h
  | list xs => simp [pyGetStr, pyGetItem, throw, throwThe, MonadExceptOf.throw] at h
  | tuple xs => simp [pyGetStr, pyGetItem, throw, throwThe, MonadExceptOf.throw] at h

/-- C6 (amended): on a request whose items list holds no aggregate
(dictionary) entry, `sql_parse` returns the request object unchanged,
and a second call on the returned request gives the same result as the
first.  (The counterexample shows this fails once an aggregate item is
present: the item is rewritten in place.) -/
theorem claim_C6_amended (p : Policy) (j : PyVal) (r : PyResult) (j2 : PyVal)
    (hplain : itemsAllPlain j = true)
    (h : sql_parse p j = pure (r, j2)) :
    j2 = j ∧ sql_parse p j2 = pure (r, j2) := by
  suffices hj : j2 = j by
    refine ⟨hj, ?_⟩
    rw [hj] at h ⊢
    exact h
  unfold sql_parse at h
  cases hcr : checkRequired j requiredInputs with
  | error e => rw [hcr] at h; simp [bind, Except.bind, pure, Except.pure] at h
  | ok o =>
      rw [hcr] at h
      cases o with
      | some msg =>
          simp [bind, Except.bind, pure, Except.pure] at h
          exact h.2.symm
      | none =>
          cases hq : pyGetStr j "query" with
          | error e => rw [hq] at h; simp [bind, Except.bind, pure, Except.pure] at h
          | ok qv =>
              rw [hq] at h
              by_cases hqm : pyMemStrList qv p.queries = true
              case neg =>
                simp only [Bool.not_eq_true] at hqm
                simp [hqm, bind, Except.bind, pure, Except.pure, Prod.mk.injEq] at h
                exact h.2.symm
              case pos =>
                simp only [bind, Except.bind, hqm, Bool.not_true, Bool.false_eq_true,
                  if_false] at h
                cases ht : pyGetStr j "table" with
                | error e => rw [ht] at h; simp [bind, Except.bind, pure, Except.pure] at h
                | ok tv =>
                    rw [ht] at h
                    by_cases htm : tableMem p tv = true
                    case neg =>
                      simp only [Bool.not_eq_true] at htm
                      simp [htm, bind, Except.bind, pure, Except.pure, Prod.mk.injEq] at h
                      exact h.2.symm
                    case pos =>
                      simp only [bind, Except.bind, htm, Bool.not_true, Bool.false_eq_true,
                        if_false] at h
                      cases hi : pyGetStr j "items" with
                      | error e => rw [hi] at h; simp [bind, Except.bind, pure, Except.pure] at h
                      | ok iv =>
                          rw [hi] at h
                          cases iv with
                          | none => simp [throw, throwThe, MonadExceptOf.throw, pure, Except.pure] at h
                          | bool b => simp [throw, throwThe, MonadExceptOf.throw, pure, Except.pure] at h
                          | int n => simp [throw, throwThe, MonadExceptOf.throw, pure, Except.pure] at h
                          | str s => simp [throw, throwThe, MonadExceptOf.throw, pure, Except.pure] at h
                          | tuple xs => simp [throw, throwThe, MonadExceptOf.throw, pure, Except.pure] at h
                          | dict es2 => simp [throw, throwThe, MonadExceptOf.throw, pure, Except.pure] at h
                          | list items =>
                              obtain ⟨es, hje, hlk⟩ := pyGetStr_ok_dict j "items" (.list items) hi
                              have hpl : ∀ x ∈ items, x.isDict = false := by
                                intro x hx
                                have hp2 := hplain
                                rw [hje] at hp2
                                simp [itemsAllPlain, hlk, List.all_eq_true] at hp2
                                exact hp2 x hx
                              obtain ⟨f, hloop⟩ := itemsLoop_plain p (tableCols p tv) items hpl
                              have hset : setItems j items = j := by
                                rw [hje]
                                simp [setItems, setItemsEntries_self es items hlk]
                              simp only [pure, Except.pure] at h
                              rw [hloop] at h
                              simp only [pure, Except.pure, hset] at h
                              repeat' split at h
                              all_goals
                                simp_all [pure, Except.pure, Prod.mk.injEq, throw, throwThe,
                                  MonadExceptOf.throw]

/-- Witness for the amended C6: a plain-items request is returned
unchanged and the second call repeats the first result. -/
theorem claim_C6_amended_witness :
    itemsAllPlain emptyColsRequest = true ∧
    emptyColsRequest = emptyColsRequest ∧
    sql_parse scenarioPolicy emptyColsRequest =
      pure (.err "Item not allowed - creature", emptyColsRequest) := by
  have h := claim_C6_amended scenarioPolicy emptyColsRequest
    (.err "Item not allowed - creature") emptyColsRequest rfl (by rfl)
  exact ⟨rfl, h.1, h.2⟩

/-! ## Policy immutability (claim C9) -/

/-- C9: the state-threaded forms of `logic_parse` and `sql_parse` return
the policy exactly as it was: the source assigns the `ALLOWED_*` fields
and the operator vocabularies only in `__init__`, and no compilation
path writes to them. -/
theorem claim_C9_policy_immutable (p : Policy) (json_input : PyVal) :
    (logic_parse_state p json_input).2 = p ∧ (sql_parse_state p json_input).2 = p :=
  ⟨rfl, rfl⟩

theorem countQ_append (a b : String) : countQ (a ++ b) = countQ a + countQ b := by
  simp [countQ, String.data_append, List.count_append]

theorem strQFree_countQ (s : String) (h : s.data.all (fun c => c ≠ Char.ofNat 63) = true) :
    countQ s = 0 := by
  simp [countQ, List.count_eq_zero]
  intro hmem
  simp [List.all_eq_true] at h
  exact absurd rfl (h _ hmem)

theorem countQ_join_zero_sep (sep : String) (hsep : countQ sep = 0) (l : List String) :
    countQ (pyJoinStr sep l) = (l.map countQ).sum := by
  induction l with
  | nil => simp [pyJoinStr, countQ]
  | cons s rest ih =>
      cases rest with
      | nil => simp [pyJoinStr]
      | cons b r2 =>
          simp only [pyJoinStr] at ih ⊢
          simp [countQ_append, hsep, ih]

theorem countQ_placeholders (n : Nat) :
    countQ (if n == 1 then "?" else pyJoinStr "," (List.replicate n "?")) = n := by
  by_cases h1 : n = 1
  · subst h1; decide
  · have hn : (n == 1) = false := by simp [h1]
    rw [hn]
    simp only [if_false, Bool.false_eq_true]
    rw [countQ_join_zero_sep "," (by decide)]
    have hq : countQ "?" = 1 := by decide
    simp [List.map_replicate, hq, List.sum_replicate]

def strQFree (s : String) : Bool := s.data.all fun c => c ≠ Char.ofNat 63

def colEntryQFree : PyVal → Bool
  | .str s => strQFree s
  | .none => true
  | _ => false

def policyQFree (p : Policy) : Bool :=
  p.queries.all strQFree && p.items.all strQFree &&
  p.tables.all (fun e => strQFree e.1 && e.2.all colEntryQFree) &&
  p.connections.all strQFree && p.columns.all (fun e => strQFree e.1)

def betweenOperandOK (k : String) (v : PyVal) : Bool :=
  if k == "BETWEEN" then
    match v with
    | .str s => s.length == 2
    | _ => true
  else true

mutual
def nsb : PyVal → Bool
  | .dict es => nsbEntries es
  | .list xs => nsbList xs
  | .tuple xs => nsbList xs
  | _ => true

def nsbEntries : List (String × PyVal) → Bool
  | [] => true
  | (k, v) :: rest => betweenOperandOK k v && nsb v && nsbEntries rest

def nsbList : List PyVal → Bool
  | [] => true
  | x :: rest => nsb x && nsbList rest
end

inductive Frag (p : Policy) : String → List PyVal → Prop where
  | scalar (c : String) (opv : PyVal) (v : PyVal)
      (hc : isColumnName p c = true)
      (hop : pyMemStrList opv pyCOMPARISON = true) :
      Frag p (c ++ " " ++ pyStrOf (get_sql_comparator opv) ++ " ?") [v]
  | colref (c : String) (opv : PyVal) (c2 : String)
      (hc : isColumnName p c = true)
      (hop : pyMemStrList opv pyCOMPARISON = true)
      (hc2 : isColumnName p c2 = true) :
      Frag p (c ++ " " ++ pyStrOf (get_sql_comparator opv) ++ " " ++ c2) []
  | aggregate (c : String) (opv : PyVal) (f a : String)
      (hc : isColumnName p c = true)
      (hop : (pyMemStrList opv pyCOMPARISON || pyMemStrList opv pySPECIAL) = true)
      (hf : f ∈ pyAGGREGATES)
      (ha : isColumnName p a = true) :
      Frag p (c ++ " " ++ pyStrOf (get_sql_comparator opv) ++ " " ++ f ++ "(" ++ a ++ ")") []
  | between (c : String) (ps : List PyVal)
      (hc : isColumnName p c = true) :
      Frag p (c ++ " BETWEEN ? AND ?") ps
  | inList (c : String) (ps : List PyVal)
      (hc : isColumnName p c = true) :
      Frag p (c ++ " IN (" ++
        (if ps.length == 1 then "?" else pyJoinStr "," (List.replicate ps.length "?"))
        ++ ")") ps
  | junction (conn : String) (parts : List (String × List PyVal))
      (hconn : conn ∈ pyLOGICAL)
      (hlen : 2 ≤ parts.length)
      (hparts : ∀ pr ∈ parts, Frag p pr.1 pr.2) :
      Frag p ("(" ++ pyJoinStr (" " ++ pyUpper conn ++ " ") (parts.map Prod.fst) ++ ")")
        ((parts.map Prod.snd).flatten)

theorem pyMemStrList_str (fv : PyVal) (l : List String)
    (h : pyMemStrList fv l = true) : ∃ s, fv = .str s ∧ s ∈ l := by
  cases fv <;> simp [pyMemStrList] at h ⊢
  exact h

theorem ivc_ok_shape (p : Policy) (c : String) (jv : PyVal)
    (hval : is_valid_comparison p c jv = .ok true) :
    ∃ s operand restj k, jv = .dict ((s, operand) :: restj) ∧
      (s ∈ pyCOMPARISON ∨ s ∈ pySPECIAL) ∧
      p.columns.lookup c = some k ∧
      (is_valid_value p operand k = .ok true ∨
        (is_valid_value p operand k = .ok false ∧
          is_special_comparison p (.str s) operand k = .ok true)) := by
  have hnondict : ∀ (v : PyVal), (∀ es, v ≠ PyVal.dict es) →
      ∀ (key : PyVal), ∃ e, pyGetItem v key = .error e := by
    intro v hv key
    cases v with
    | dict es => exact absurd rfl (hv es)
    | none => exact ⟨.typeError, rfl⟩
    | bool b => exact ⟨.typeError, rfl⟩
    | int n => exact ⟨.typeError, rfl⟩
    | str s => exact ⟨.typeError, rfl⟩
    | list xs => exact ⟨.typeError, rfl⟩
    | tuple xs => exact ⟨.typeError, rfl⟩
  cases jv with
  | dict es =>
      cases es with
      | nil =>
          simp [is_valid_comparison, pyFirst, pyListOf, throw, throwThe,
            MonadExceptOf.throw, bind, Except.bind, pure, Except.pure] at hval
      | cons e restj =>
          obtain ⟨s0, op0⟩ := e
          refine ⟨s0, op0, restj, ?_⟩
          unfold is_valid_comparison at hval
          rw [show pyFirst (PyVal.dict ((s0, op0) :: restj)) = .ok (.str s0) from rfl] at hval
          by_cases hmem : (¬ pyMemStrList (.str s0) pyCOMPARISON = true ∧
              ¬ pyMemStrList (.str s0) pySPECIAL = true)
          · simp only [Bool.not_eq_true] at hmem
            simp [bind, Except.bind, hmem.1, hmem.2, pure, Except.pure] at hval
          · have hmem2 : s0 ∈ pyCOMPARISON ∨ s0 ∈ pySPECIAL := by
              by_cases h1 : pyMemStrList (.str s0) pyCOMPARISON = true
              · exact Or.inl (by simpa [pyMemStrList] using h1)
              · by_cases h2 : pyMemStrList (.str s0) pySPECIAL = true
                · exact Or.inr (by simpa [pyMemStrList] using h2)
                · exact absurd ⟨h1, h2⟩ hmem
            simp only [bind, Except.bind, pure, Except.pure] at hval
            rw [if_neg hmem] at hval
            rw [show pyGetItem (PyVal.dict ((s0, op0) :: restj)) (.str s0) = .ok op0 from
              by simp [pyGetItem, List.lookup]; exact rfl] at hval
            cases hk : p.columns.lookup c with
            | none =>
                rw [show columnKind p c = Except.error .keyError from
                  by simp [columnKind, hk, throw, throwThe, MonadExceptOf.throw]] at hval
                simp at hval
            | some k =>
                refine ⟨k, rfl, hmem2, rfl, ?_⟩
                rw [show columnKind p c = Except.ok k from
                  by simp [columnKind, hk]; exact rfl] at hval
                simp only [pure, Except.pure] at hval
                cases hivv : is_valid_value p op0 k with
                | error e => rw [hivv] at hval; simp at hval
                | ok b =>
                    rw [hivv] at hval
                    cases b with
                    | true => exact Or.inl rfl
                    | false =>
                        cases hisc : is_special_comparison p (.str s0) op0 k with
                        | error e => rw [hisc] at hval; simp at hval
                        | ok b2 =>
                            rw [hisc] at hval
                            cases b2 with
                            | true => exact Or.inr ⟨rfl, rfl⟩
                            | false => simp [pure, Except.pure] at hval
  | none =>
      simp [is_valid_comparison, pyFirst, pyListOf, throw, throwThe, MonadExceptOf.throw,
        bind, Except.bind] at hval
  | bool b =>
      simp [is_valid_comparison, pyFirst, pyListOf, throw, throwThe, MonadExceptOf.throw,
        bind, Except.bind] at hval
  | int n =>
      simp [is_valid_comparison, pyFirst, pyListOf, throw, throwThe, MonadExceptOf.throw,
        bind, Except.bind] at hval
  | str sv =>
      unfold is_valid_comparison at hval
      cases hf : pyFirst (.str sv) with
      | error e => rw [hf] at hval; simp [bind, Except.bind] at hval
      | ok fv =>
          rw [hf] at hval
          simp only [bind, Except.bind, pure, Except.pure] at hval
          by_cases hmem : (¬ pyMemStrList fv pyCOMPARISON = true ∧
              ¬ pyMemStrList fv pySPECIAL = true)
          · rw [if_pos hmem] at hval
            simp at hval
          · rw [if_neg hmem] at hval
            have hor : pyMemStrList fv pyCOMPARISON = true ∨
                pyMemStrList fv pySPECIAL = true := by tauto
            have hfs : ∃ s2, fv = PyVal.str s2 := by
              rcases hor with h | h
              · obtain ⟨s2, hs2, _⟩ := pyMemStrList_str fv pyCOMPARISON h
                exact ⟨s2, hs2⟩
              · obtain ⟨s2, hs2, _⟩ := pyMemStrList_str fv pySPECIAL h
                exact ⟨s2, hs2⟩
            obtain ⟨s2, rfl⟩ := hfs
            rw [show pyGetItem (PyVal.str sv) (PyVal.str s2) = .error .typeError from rfl] at hval
            simp at hval
  | list xs =>
      unfold is_valid_comparison at hval
      cases hf : pyFirst (.list xs) with
      | error e => rw [hf] at hval; simp [bind, Except.bind] at hval
      | ok fv =>
          rw [hf] at hval
          simp only [bind, Except.bind, pure, Except.pure] at hval
          by_cases hmem : (¬ pyMemStrList fv pyCOMPARISON = true ∧
              ¬ pyMemStrList fv pySPECIAL = true)
          · rw [if_pos hmem] at hval
            simp at hval
          · rw [if_neg hmem] at hval
            have hor : pyMemStrList fv pyCOMPARISON = true ∨
                pyMemStrList fv pySPECIAL = true := by tauto
            have hfs : ∃ s2, fv = PyVal.str s2 := by
              rcases hor with h | h
              · obtain ⟨s2, hs2, _⟩ := pyMemStrList_str fv pyCOMPARISON h
                exact ⟨s2, hs2⟩
              · obtain ⟨s2, hs2, _⟩ := pyMemStrList_str fv pySPECIAL h
                exact ⟨s2, hs2⟩
            obtain ⟨s2, rfl⟩ := hfs
            rw [show pyGetItem (PyVal.list xs) (PyVal.str s2) = .error .typeError from rfl] at hval
            simp at hval
  | tuple xs =>
      unfold is_valid_comparison at hval
      cases hf : pyFirst (.tuple xs) with
      | error e => rw [hf] at hval; simp [bind, Except.bind] at hval
      | ok fv =>
          rw [hf] at hval
          simp only [bind, Except.bind, pure, Except.pure] at hval
          by_cases hmem : (¬ pyMemStrList fv pyCOMPARISON = true ∧
              ¬ pyMemStrList fv pySPECIAL = true)
          · rw [if_pos hmem] at hval
            simp at hval
          · rw [if_neg hmem] at hval
            have hor : pyMemStrList fv pyCOMPARISON = true ∨
                pyMemStrList fv pySPECIAL = true := by tauto
            have hfs : ∃ s2, fv = PyVal.str s2 := by
              rcases hor with h | h
              · obtain ⟨s2, hs2, _⟩ := pyMemStrList_str fv pyCOMPARISON h
                exact ⟨s2, hs2⟩
              · obtain ⟨s2, hs2, _⟩ := pyMemStrList_str fv pySPECIAL h
                exact ⟨s2, hs2⟩
            obtain ⟨s2, rfl⟩ := hfs
            rw [show pyGetItem (PyVal.tuple xs) (PyVal.str s2) = .error .typeError from rfl] at hval
            simp at hval

theorem lookup_mem {α β : Type} [BEq α] [LawfulBEq α] {l : List (α × β)} {a : α}
    {b : β} (h : l.lookup a = some b) : (a, b) ∈ l := by
  induction l with
  | nil => simp [List.lookup] at h
  | cons e rest ih =>
      obtain ⟨k, v⟩ := e
      by_cases hk : (a == k) = true
      · simp only [List.lookup, hk, if_true] at h
        have ha : a = k := by simpa using hk
        have hb : v = b := by simpa using h
        subst ha; subst hb
        exact List.mem_cons_self _ _
      · have hk2 : (a == k) = false := by simpa using hk
        simp only [List.lookup, hk2, Bool.false_eq_true, if_false] at h
        exact List.mem_cons_of_mem _ (ih h)

theorem qfree_column (p : Policy) (c : String)
    (hp : policyQFree p = true) (hc : isColumnName p c = true) : countQ c = 0 := by
  simp only [isColumnName, Option.isSome_iff_exists] at hc
  obtain ⟨k, hk⟩ := hc
  have hmem := lookup_mem hk
  simp only [policyQFree, Bool.and_eq_true, List.all_eq_true] at hp
  obtain ⟨⟨⟨⟨-, -⟩, -⟩, -⟩, hcols⟩ := hp
  have := hcols (c, k) hmem
  exact strQFree_countQ c (by simpa [strQFree] using this)

theorem comparator_countQ (s : String)
    (h : s ∈ pyCOMPARISON ∨ s ∈ pySPECIAL) :
    countQ (pyStrOf (get_sql_comparator (.str s))) = 0 := by
  rcases h with h | h <;> simp [pyCOMPARISON, pySPECIAL] at h <;>
    rcases h with rfl | rfl | rfl | rfl | rfl | rfl | rfl <;> decide

theorem agg_countQ (f : String) (h : f ∈ pyAGGREGATES) : countQ f = 0 := by
  fin_cases h <;> decide

theorem another_column_shape (p : Policy) (v : PyVal)
    (h : is_another_column p v = true) :
    ∃ c2, v = .str c2 ∧ isColumnName p c2 = true := by
  cases v <;> simp [is_another_column] at h ⊢
  exact h

theorem ivv_tuple (p : Policy) (xs : List PyVal) (k : ValueKind) :
    is_valid_value p (.tuple xs) k = .ok false := by
  cases k <;> rfl

theorem special_nonlist (p : Policy) (co : PyVal) (operand : PyVal) (k : ValueKind)
    (h : operand.isList = false) :
    is_special_comparison p co operand k = .ok false := by
  cases operand <;> simp [PyVal.isList] at h ⊢ <;> rfl

theorem ivv_dict_shape (p : Policy) (des : List (String × PyVal)) (k : ValueKind)
    (h : is_valid_value p (.dict des) k = .ok true) :
    ∃ f a restd astr, des = (f, a) :: restd ∧ f ∈ pyAGGREGATES ∧
      a = .str astr ∧ isColumnName p astr = true := by
  cases des with
  | nil =>
      simp [is_valid_value, PyVal.isDict, is_valid_aggregate, throw, throwThe,
        MonadExceptOf.throw] at h
  | cons e restd =>
      obtain ⟨f, a⟩ := e
      refine ⟨f, a, restd, ?_⟩
      simp only [is_valid_value, PyVal.isDict, if_true] at h
      by_cases hagg : pyAGGREGATES.contains f = true
      · have hmem : f ∈ pyAGGREGATES := by simpa using hagg
        simp only [is_valid_aggregate, hagg, Bool.not_true] at h
        obtain ⟨c2, hc2, hcol⟩ := another_column_shape p a (by
          by_cases hc : is_another_column p a = true
          · exact hc
          · simp [hc, pure, Except.pure] at h)
        exact ⟨c2, rfl, hmem, hc2, hcol⟩
      · have hnotmem : f ∉ pyAGGREGATES := by simpa using hagg
        simp [is_valid_aggregate, hnotmem, pure, Except.pure] at h

theorem special_list_true (p : Policy) (s : String) (xs : List PyVal) (k : ValueKind)
    (h : is_special_comparison p (.str s) (.list xs) k = .ok true) :
    (s = "BETWEEN" ∧ xs.length = 2) ∨ (s = "IN" ∧ 0 < xs.length) := by
  simp only [is_special_comparison] at h
  cases hav : all_values_allowed p k xs with
  | error e => rw [hav] at h; simp [bind, Except.bind] at h
  | ok b =>
      rw [hav] at h
      cases b with
      | false => simp [bind, Except.bind, pure, Except.pure] at h
      | true =>
          simp only [bind, Except.bind, pure, Except.pure] at h
          repeat' split at h
          all_goals simp_all [pyEq]

theorem singleton_not_agg (c : Char) :
    pyMemStrList (.str (String.singleton c)) pyAGGREGATES = false := by
  cases hmem : pyMemStrList (.str (String.singleton c)) pyAGGREGATES with
  | false => rfl
  | true =>
      obtain ⟨s2, hs2, hin⟩ := pyMemStrList_str _ _ hmem
      have heq : String.singleton c = s2 := by injection hs2
      rw [← heq] at hin
      have h1 : (String.singleton c).length = 1 := rfl
      simp only [pyAGGREGATES, List.mem_cons, List.not_mem_nil, or_false] at hin
      rcases hin with h | h | h | h | h <;>
        (rw [h] at h1; exact absurd h1 (by decide))

/-! ## Structure of every successful compilation (claims C1 and C4) -/

theorem mem_pyMemStrList (s : String) (l : List String) (h : s ∈ l) :
    pyMemStrList (.str s) l = true := by
  simpa [pyMemStrList] using h

theorem pyFirst_dict_head (s : String) (v : PyVal) (restj : List (String × PyVal)) :
    pyFirst (.dict ((s, v) :: restj)) = .ok (.str s) := rfl

theorem pyGetItem_head (s : String) (v : PyVal) (restj : List (String × PyVal)) :
    pyGetItem (.dict ((s, v) :: restj)) (.str s) = .ok v := by
  simp [pyGetItem, List.lookup]
  exact rfl

/-- The simple-scalar branch of lines 226-234: a plain comparator with a
non-column, non-dictionary operand produces one placeholder binding the
operand (a tuple operand is spread). -/
theorem compile_scalar (p : Policy) (value s : String) (operand : PyVal)
    (restj : List (String × PyVal)) (t : String) (ps : List PyVal)
    (hsC : s ∈ pyCOMPARISON)
    (hnac : is_another_column p operand = false)
    (hnd : operand.isDict = false)
    (hnt : ∀ xs, operand ≠ .tuple xs)
    (hcomp : compileComparison p value (.dict ((s, operand) :: restj)) =
      .ok (some (.ok t ps))) :
    t = value ++ " " ++ pyStrOf (get_sql_comparator (.str s)) ++ " ?" ∧
    ps = [operand] := by
  unfold compileComparison at hcomp
  rw [pyFirst_dict_head] at hcomp
  simp only [bind, Except.bind] at hcomp
  rw [pyGetItem_head] at hcomp
  simp only [bind, Except.bind] at hcomp
  rw [if_pos ⟨mem_pyMemStrList s _ hsC, by simp [hnac], by simp [hnd]⟩] at hcomp
  cases operand
  case tuple xs => exact absurd rfl (hnt xs)
  all_goals
    simp only [pure, Except.pure, Except.ok.injEq, Option.some.injEq,
      PyResult.ok.injEq] at hcomp
  all_goals exact ⟨hcomp.1.symm, hcomp.2.symm⟩

/-- The column-reference branch of lines 236-246: a plain comparator
whose operand names a declared column embeds it with no parameter. -/
theorem compile_colref (p : Policy) (value s sv : String)
    (restj : List (String × PyVal)) (t : String) (ps : List PyVal)
    (hsC : s ∈ pyCOMPARISON)
    (hac : is_another_column p (.str sv) = true)
    (hcomp : compileComparison p value (.dict ((s, .str sv) :: restj)) =
      .ok (some (.ok t ps))) :
    t = value ++ " " ++ pyStrOf (get_sql_comparator (.str s)) ++ " " ++ sv ∧
    ps = [] := by
  unfold compileComparison at hcomp
  rw [pyFirst_dict_head] at hcomp
  simp only [bind, Except.bind] at hcomp
  rw [pyGetItem_head] at hcomp
  simp only [bind, Except.bind] at hcomp
  rw [if_neg (fun h => absurd hac h.2.1)] at hcomp
  rw [if_pos ⟨mem_pyMemStrList s _ hsC, hac⟩] at hcomp
  simp only [pure, Except.pure, Except.ok.injEq, Option.some.injEq,
    PyResult.ok.injEq] at hcomp
  exact ⟨hcomp.1.symm, hcomp.2.symm⟩

/-- The aggregate branch of lines 248-257: a dictionary operand whose
first key is an aggregate tag embeds `FUNC(argument)` with no
parameter. -/
theorem compile_aggregate (p : Policy) (value s f : String) (a : PyVal)
    (restd : List (String × PyVal)) (restj : List (String × PyVal))
    (t : String) (ps : List PyVal)
    (hf : f ∈ pyAGGREGATES)
    (hcomp : compileComparison p value
        (.dict ((s, .dict ((f, a) :: restd)) :: restj)) =
      .ok (some (.ok t ps))) :
    t = value ++ " " ++ pyStrOf (get_sql_comparator (.str s)) ++ " " ++
        pyStrOf (.str f) ++ "(" ++ pyStrOf a ++ ")" ∧
    ps = [] := by
  unfold compileComparison at hcomp
  rw [pyFirst_dict_head] at hcomp
  simp only [bind, Except.bind] at hcomp
  rw [pyGetItem_head] at hcomp
  simp only [bind, Except.bind] at hcomp
  rw [if_neg (fun h => h.2.2 rfl)] at hcomp
  rw [if_neg (fun h => absurd h.2 (by simp [is_another_column]))] at hcomp
  rw [pyFirst_dict_head] at hcomp
  simp only [bind, Except.bind] at hcomp
  rw [if_pos (mem_pyMemStrList f _ hf)] at hcomp
  rw [pyGetItem_head] at hcomp
  simp only [bind, Except.bind, pure, Except.pure, Except.ok.injEq,
    Option.some.injEq, PyResult.ok.injEq] at hcomp
  exact ⟨hcomp.1.symm, hcomp.2.symm⟩

/-- The `BETWEEN`/`IN` branches of lines 259-282 on a string operand:
`tuple(operand)` explodes the string into its characters, one parameter
per character. -/
theorem compile_special_str (p : Policy) (value s sv : String)
    (restj : List (String × PyVal)) (t : String) (ps : List PyVal)
    (hcol : isColumnName p value = true)
    (hs : s ∈ pySPECIAL)
    (hcomp : compileComparison p value (.dict ((s, .str sv) :: restj)) =
      .ok (some (.ok t ps))) :
    Frag p t ps ∧ (policyQFree p = true →
      betweenOperandOK s (.str sv) = true → countQ t = ps.length) := by
  unfold compileComparison at hcomp
  rw [pyFirst_dict_head] at hcomp
  simp only [bind, Except.bind] at hcomp
  rw [pyGetItem_head] at hcomp
  simp only [bind, Except.bind] at hcomp
  fin_cases hs
  · rw [if_neg (fun h => absurd h.1 (by decide))] at hcomp
    rw [if_neg (fun h => absurd h.1 (by decide))] at hcomp
    cases hdt : sv.data with
    | nil =>
        have hf : pyFirst (.str sv) = .error .indexError := by
          simp [pyFirst, pyListOf, hdt, bind, Except.bind, pure, Except.pure,
            throw, throwThe, MonadExceptOf.throw]
        rw [hf] at hcomp
        simp [bind, Except.bind] at hcomp
    | cons c0 cs =>
        have hf : pyFirst (.str sv) = .ok (.str (String.singleton c0)) := by
          simp [pyFirst, pyListOf, hdt, bind, Except.bind, pure, Except.pure]
        rw [hf] at hcomp
        simp only [bind, Except.bind] at hcomp
        rw [if_neg (by simp [singleton_not_agg c0])] at hcomp
        rw [if_pos (by decide)] at hcomp
        rw [if_pos (by decide)] at hcomp
        have htup : pyTuple (.str sv) =
            .ok (sv.data.map fun c => PyVal.str (String.singleton c)) := rfl
        rw [htup] at hcomp
        simp only [bind, Except.bind, pure, Except.pure, Except.ok.injEq,
          Option.some.injEq, PyResult.ok.injEq] at hcomp
        obtain ⟨ht, hps⟩ := hcomp
        constructor
        · rw [← ht, ← hps]
          exact Frag.between value _ hcol
        · intro hqf hbok
          rw [← ht, ← hps]
          have hqv : countQ value = 0 := qfree_column p value hqf hcol
          have hlen : sv.length = 2 := by
            simpa [betweenOperandOK] using hbok
          have hdl : sv.data.length = 2 := hlen
          rw [countQ_append, hqv, List.length_map, hdl]
          decide
  · rw [if_neg (fun h => absurd h.1 (by decide))] at hcomp
    rw [if_neg (fun h => absurd h.1 (by decide))] at hcomp
    cases hdt : sv.data with
    | nil =>
        have hf : pyFirst (.str sv) = .error .indexError := by
          simp [pyFirst, pyListOf, hdt, bind, Except.bind, pure, Except.pure,
            throw, throwThe, MonadExceptOf.throw]
        rw [hf] at hcomp
        simp [bind, Except.bind] at hcomp
    | cons c0 cs =>
        have hf : pyFirst (.str sv) = .ok (.str (String.singleton c0)) := by
          simp [pyFirst, pyListOf, hdt, bind, Except.bind, pure, Except.pure]
        rw [hf] at hcomp
        simp only [bind, Except.bind] at hcomp
        rw [if_neg (by simp [singleton_not_agg c0])] at hcomp
        rw [if_pos (by decide)] at hcomp
        rw [if_neg (by decide)] at hcomp
        rw [if_pos (by decide)] at hcomp
        have hplen : pyLen (.str sv) = .ok sv.length := rfl
        rw [hplen] at hcomp
        simp only [bind, Except.bind] at hcomp
        have htup : pyTuple (.str sv) =
            .ok (sv.data.map fun c => PyVal.str (String.singleton c)) := rfl
        rw [htup] at hcomp
        simp only [bind, Except.bind, pure, Except.pure, Except.ok.injEq,
          Option.some.injEq, PyResult.ok.injEq] at hcomp
        obtain ⟨ht, hps⟩ := hcomp
        have hlen : ((sv.data.map fun c => PyVal.str (String.singleton c)) :
            List PyVal).length = sv.length := by
          rw [List.length_map]
          rfl
        constructor
        · rw [← ht, ← hps]
          have hh := Frag.inList (p := p) value
            (sv.data.map fun c => PyVal.str (String.singleton c)) hcol
          rw [hlen] at hh
          exact hh
        · intro hqf hbok
          rw [← ht, ← hps]
          have hqv : countQ value = 0 := qfree_column p value hqf hcol
          have cIn : countQ " IN (" = 0 := by decide
          have cCl : countQ ")" = 0 := by decide
          rw [countQ_append, countQ_append, countQ_append, hqv, cIn, cCl,
            countQ_placeholders, hlen]
          omega

/-- The `BETWEEN`/`IN` branches of lines 259-282 on a list operand of
valid arity, provided the first element is not an aggregate tag (an
aggregate-tag first element crashes at `operand[firstOp]`). -/
theorem compile_special_list (p : Policy) (value s : String) (xs : List PyVal)
    (restj : List (String × PyVal)) (t : String) (ps : List PyVal)
    (hcol : isColumnName p value = true)
    (harity : (s = "BETWEEN" ∧ xs.length = 2) ∨ (s = "IN" ∧ 0 < xs.length))
    (hcomp : compileComparison p value (.dict ((s, .list xs) :: restj)) =
      .ok (some (.ok t ps))) :
    Frag p t ps ∧ (policyQFree p = true → countQ t = ps.length) := by
  unfold compileComparison at hcomp
  rw [pyFirst_dict_head] at hcomp
  simp only [bind, Except.bind] at hcomp
  rw [pyGetItem_head] at hcomp
  simp only [bind, Except.bind] at hcomp
  rcases harity with ⟨rfl, hlen⟩ | ⟨rfl, hlen⟩
  · rw [if_neg (fun h => absurd h.1 (by decide))] at hcomp
    rw [if_neg (fun h => absurd h.1 (by decide))] at hcomp
    cases xs with
    | nil => simp at hlen
    | cons x0 xr =>
        have hf : pyFirst (.list (x0 :: xr)) = .ok x0 := rfl
        rw [hf] at hcomp
        simp only [bind, Except.bind] at hcomp
        cases hagg : pyMemStrList x0 pyAGGREGATES with
        | true =>
            rw [if_pos hagg] at hcomp
            rw [show pyGetItem (PyVal.list (x0 :: xr)) x0 = .error .typeError
              from rfl] at hcomp
            simp [bind, Except.bind] at hcomp
        | false =>
            rw [if_neg (by simp [hagg])] at hcomp
            rw [if_pos (by decide)] at hcomp
            rw [if_pos (by decide)] at hcomp
            rw [show pyTuple (PyVal.list (x0 :: xr)) = .ok (x0 :: xr) from rfl] at hcomp
            simp only [bind, Except.bind, pure, Except.pure, Except.ok.injEq,
              Option.some.injEq, PyResult.ok.injEq] at hcomp
            obtain ⟨ht, hps⟩ := hcomp
            constructor
            · rw [← ht, ← hps]
              exact Frag.between value _ hcol
            · intro hqf
              rw [← ht, ← hps]
              have hqv : countQ value = 0 := qfree_column p value hqf hcol
              rw [countQ_append, hqv, hlen]
              decide
  · rw [if_neg (fun h => absurd h.1 (by decide))] at hcomp
    rw [if_neg (fun h => absurd h.1 (by decide))] at hcomp
    cases xs with
    | nil => simp at hlen
    | cons x0 xr =>
        have hf : pyFirst (.list (x0 :: xr)) = .ok x0 := rfl
        rw [hf] at hcomp
        simp only [bind, Except.bind] at hcomp
        cases hagg : pyMemStrList x0 pyAGGREGATES with
        | true =>
            rw [if_pos hagg] at hcomp
            rw [show pyGetItem (PyVal.list (x0 :: xr)) x0 = .error .typeError
              from rfl] at hcomp
            simp [bind, Except.bind] at hcomp
        | false =>
            rw [if_neg (by simp [hagg])] at hcomp
            rw [if_pos (by decide)] at hcomp
            rw [if_neg (by decide)] at hcomp
            rw [if_pos (by decide)] at hcomp
            rw [show pyLen (PyVal.list (x0 :: xr)) = .ok (x0 :: xr).length
              from rfl] at hcomp
            simp only [bind, Except.bind] at hcomp
            rw [show pyTuple (PyVal.list (x0 :: xr)) = .ok (x0 :: xr) from rfl] at hcomp
            simp only [bind, Except.bind, pure, Except.pure, Except.ok.injEq,
              Option.some.injEq, PyResult.ok.injEq] at hcomp
            obtain ⟨ht, hps⟩ := hcomp
            constructor
            · rw [← ht, ← hps]
              exact Frag.inList value _ hcol
            · intro hqf
              rw [← ht, ← hps]
              have hqv : countQ value = 0 := qfree_column p value hqf hcol
              have cIn : countQ " IN (" = 0 := by decide
              have cCl : countQ ")" = 0 := by decide
              rw [countQ_append, countQ_append, countQ_append, hqv, cIn, cCl,
                countQ_placeholders]
              omega

/-- Master lemma for the comparison branches: a successful compilation
of a validated comparison node yields a `Frag`-shaped result, and -
under a question-mark-free policy and a well-behaved `BETWEEN`
operand - its placeholder count equals its parameter count. -/
theorem compile_comparison_master (p : Policy) (value s : String)
    (operand : PyVal) (restj : List (String × PyVal)) (k : ValueKind)
    (t : String) (ps : List PyVal)
    (hk : p.columns.lookup value = some k)
    (hmem2 : s ∈ pyCOMPARISON ∨ s ∈ pySPECIAL)
    (hv : is_valid_value p operand k = .ok true ∨
          (is_valid_value p operand k = .ok false ∧
           is_special_comparison p (.str s) operand k = .ok true))
    (hcomp : compileComparison p value (.dict ((s, operand) :: restj)) =
      .ok (some (.ok t ps))) :
    Frag p t ps ∧ (policyQFree p = true →
      betweenOperandOK s operand = true → countQ t = ps.length) := by
  have hcol : isColumnName p value = true := by simp [isColumnName, hk]
  have c1 : countQ " " = 0 := by decide
  cases operand with
  | tuple xs =>
      rcases hv with hv | ⟨hv1, hv2⟩
      · rw [ivv_tuple] at hv
        simp at hv
      · rw [special_nonlist p (.str s) (.tuple xs) k rfl] at hv2
        simp at hv2
  | dict des =>
      rcases hv with hv | ⟨hv1, hv2⟩
      · obtain ⟨f, a, restd, astr, hdes, hfagg, hastr, hacol⟩ :=
          ivv_dict_shape p des k hv
        subst hdes
        subst hastr
        obtain ⟨ht, hps⟩ :=
          compile_aggregate p value s f (.str astr) restd restj t ps hfagg hcomp
        have hop : (pyMemStrList (PyVal.str s) pyCOMPARISON ||
            pyMemStrList (PyVal.str s) pySPECIAL) = true := by
          rcases hmem2 with h | h
          · simp [mem_pyMemStrList s _ h]
          · simp [mem_pyMemStrList s _ h]
        constructor
        · rw [ht, hps]
          exact Frag.aggregate value (.str s) f astr hcol hop hfagg hacol
        · intro hqf hbok
          rw [ht, hps]
          have hqv : countQ value = 0 := qfree_column p value hqf hcol
          have hqa : countQ astr = 0 := qfree_column p astr hqf hacol
          have hqc : countQ (pyStrOf (get_sql_comparator (.str s))) = 0 :=
            comparator_countQ s hmem2
          have hqf2 : countQ f = 0 := agg_countQ f hfagg
          have c2 : countQ "(" = 0 := by decide
          have c3 : countQ ")" = 0 := by decide
          rw [show pyStrOf (PyVal.str f) = f from rfl,
            show pyStrOf (PyVal.str astr) = astr from rfl]
          simp [countQ_append, hqv, hqa, hqc, hqf2, c1, c2, c3]
      · rw [special_nonlist p (.str s) (.dict des) k rfl] at hv2
        simp at hv2
  | list xs =>
      rcases hv with hv | ⟨hv1, hv2⟩
      · rw [is_valid_value_list] at hv
        simp [pure, Except.pure] at hv
      · have harity := special_list_true p s xs k hv2
        have h := compile_special_list p value s xs restj t ps hcol harity hcomp
        exact ⟨h.1, fun hqf hbok => h.2 hqf⟩
  | str sv =>
      rcases hmem2 with hs | hs
      · by_cases hac : is_another_column p (.str sv) = true
        · obtain ⟨ht, hps⟩ := compile_colref p value s sv restj t ps hs hac hcomp
          have hc2 : isColumnName p sv = true := by
            simpa [is_another_column] using hac
          constructor
          · rw [ht, hps]
            exact Frag.colref value (.str s) sv hcol (mem_pyMemStrList s _ hs) hc2
          · intro hqf hbok
            rw [ht, hps]
            have hqv : countQ value = 0 := qfree_column p value hqf hcol
            have hqs : countQ sv = 0 := qfree_column p sv hqf hc2
            have hqc : countQ (pyStrOf (get_sql_comparator (.str s))) = 0 :=
              comparator_countQ s (Or.inl hs)
            simp [countQ_append, hqv, hqs, hqc, c1]
        · have hnac : is_another_column p (.str sv) = false := by
            simpa using hac
          obtain ⟨ht, hps⟩ := compile_scalar p value s (.str sv) restj t ps hs
            hnac rfl (fun xs h => PyVal.noConfusion h) hcomp
          constructor
          · rw [ht, hps]
            exact Frag.scalar value (.str s) (.str sv) hcol (mem_pyMemStrList s _ hs)
          · intro hqf hbok
            rw [ht, hps]
            have hqv : countQ value = 0 := qfree_column p value hqf hcol
            have hqc : countQ (pyStrOf (get_sql_comparator (.str s))) = 0 :=
              comparator_countQ s (Or.inl hs)
            have c4 : countQ " ?" = 1 := by decide
            simp [countQ_append, hqv, hqc, c1, c4]
      · exact compile_special_str p value s sv restj t ps hcol hs hcomp
  | none =>
      rcases hmem2 with hs | hs
      · obtain ⟨ht, hps⟩ := compile_scalar p value s .none restj t ps hs
          rfl rfl (fun xs h => PyVal.noConfusion h) hcomp
        constructor
        · rw [ht, hps]
          exact Frag.scalar value (.str s) .none hcol (mem_pyMemStrList s _ hs)
        · intro hqf hbok
          rw [ht, hps]
          have hqv : countQ value = 0 := qfree_column p value hqf hcol
          have hqc : countQ (pyStrOf (get_sql_comparator (.str s))) = 0 :=
            comparator_countQ s (Or.inl hs)
          have c4 : countQ " ?" = 1 := by decide
          simp [countQ_append, hqv, hqc, c1, c4]
      · have hsC : pyMemStrList (.str s) pyCOMPARISON = false := by
          fin_cases hs <;> decide
        unfold compileComparison at hcomp
        rw [pyFirst_dict_head] at hcomp
        simp only [bind, Except.bind] at hcomp
        rw [pyGetItem_head] at hcomp
        simp only [bind, Except.bind] at hcomp
        rw [if_neg (fun h => by rw [hsC] at h; exact absurd h.1 (by simp))] at hcomp
        rw [if_neg (fun h => by rw [hsC] at h; exact absurd h.1 (by simp))] at hcomp
        rw [show pyFirst PyVal.none = .error .typeError from rfl] at hcomp
        simp [bind, Except.bind] at hcomp
  | bool b =>
      rcases hmem2 with hs | hs
      · obtain ⟨ht, hps⟩ := compile_scalar p value s (.bool b) restj t ps hs
          rfl rfl (fun xs h => PyVal.noConfusion h) hcomp
        constructor
        · rw [ht, hps]
          exact Frag.scalar value (.str s) (.bool b) hcol (mem_pyMemStrList s _ hs)
        · intro hqf hbok
          rw [ht, hps]
          have hqv : countQ value = 0 := qfree_column p value hqf hcol
          have hqc : countQ (pyStrOf (get_sql_comparator (.str s))) = 0 :=
            comparator_countQ s (Or.inl hs)
          have c4 : countQ " ?" = 1 := by decide
          simp [countQ_append, hqv, hqc, c1, c4]
      · have hsC : pyMemStrList (.str s) pyCOMPARISON = false := by
          fin_cases hs <;> decide
        unfold compileComparison at hcomp
        rw [pyFirst_dict_head] at hcomp
        simp only [bind, Except.bind] at hcomp
        rw [pyGetItem_head] at hcomp
        simp only [bind, Except.bind] at hcomp
        rw [if_neg (fun h => by rw [hsC] at h; exact absurd h.1 (by simp))] at hcomp
        rw [if_neg (fun h => by rw [hsC] at h; exact absurd h.1 (by simp))] at hcomp
        rw [show pyFirst (PyVal.bool b) = .error .typeError from rfl] at hcomp
        simp [bind, Except.bind] at hcomp
  | int n =>
      rcases hmem2 with hs | hs
      · obtain ⟨ht, hps⟩ := compile_scalar p value s (.int n) restj t ps hs
          rfl rfl (fun xs h => PyVal.noConfusion h) hcomp
        constructor
        · rw [ht, hps]
          exact Frag.scalar value (.str s) (.int n) hcol (mem_pyMemStrList s _ hs)
        · intro hqf hbok
          rw [ht, hps]
          have hqv : countQ value = 0 := qfree_column p value hqf hcol
          have hqc : countQ (pyStrOf (get_sql_comparator (.str s))) = 0 :=
            comparator_countQ s (Or.inl hs)
          have c4 : countQ " ?" = 1 := by decide
          simp [countQ_append, hqv, hqc, c1, c4]
      · have hsC : pyMemStrList (.str s) pyCOMPARISON = false := by
          fin_cases hs <;> decide
        unfold compileComparison at hcomp
        rw [pyFirst_dict_head] at hcomp
        simp only [bind, Except.bind] at hcomp
        rw [pyGetItem_head] at hcomp
        simp only [bind, Except.bind] at hcomp
        rw [if_neg (fun h => by rw [hsC] at h; exact absurd h.1 (by simp))] at hcomp
        rw [if_neg (fun h => by rw [hsC] at h; exact absurd h.1 (by simp))] at hcomp
        rw [show pyFirst (PyVal.int n) = .error .typeError from rfl] at hcomp
        simp [bind, Except.bind] at hcomp

/-- The failure-message builder of lines 211-219 never produces a
success result. -/
theorem badComparisonMsg_no_ok (p : Policy) (value : String) (jv : PyVal)
    (t : String) (ps : List PyVal) :
    badComparisonMsg p value jv ≠ .ok (some (.ok t ps)) := by
  intro h
  unfold badComparisonMsg at h
  cases jv
  case dict es =>
      cases es with
      | nil =>
          simp only [PyVal.isDict, if_true, bind, Except.bind] at h
          rw [show pyFirst (PyVal.dict []) = .error .indexError from rfl] at h
          simp [bind, Except.bind] at h
      | cons e rest =>
          obtain ⟨k0, v0⟩ := e
          simp only [PyVal.isDict, if_true, bind, Except.bind] at h
          rw [pyFirst_dict_head] at h
          simp only [bind, Except.bind, pure, Except.pure] at h
          cases hb : (! pyMemStrList (PyVal.str k0) pyCOMPARISON &&
              ! pyMemStrList (PyVal.str k0) pySPECIAL) with
          | true =>
              rw [if_pos hb] at h
              simp [bind, Except.bind, pure, Except.pure] at h
          | false =>
              rw [if_neg (by simp [hb])] at h
              cases hck : columnKind p value with
              | error e2 => rw [hck] at h; simp [bind, Except.bind] at h
              | ok kk =>
                  rw [hck] at h
                  simp [bind, Except.bind, pure, Except.pure] at h
  all_goals
    simp only [PyVal.isDict, Bool.false_eq_true, if_false, bind, Except.bind,
      pure, Except.pure] at h
  all_goals
    cases hck : columnKind p value with
    | error e2 => rw [hck] at h; simp at h
    | ok kk => rw [hck] at h; simp [pure, Except.pure] at h

/-- A short-circuited child loop only ever forwards a failure pair. -/
theorem processCases_inl_err (p : Policy) (cs : List PyVal) (f : PyResult)
    (h : processCases p cs = .ok (.inl f)) : ∃ m, f = .err m := by
  induction cs generalizing f with
  | nil =>
      unfold processCases at h
      simp [pure, Except.pure] at h
  | cons c rest ih =>
      unfold processCases at h
      cases hlp : logic_parse p c with
      | error e => rw [hlp] at h; simp [bind, Except.bind] at h
      | ok ev =>
          rw [hlp] at h
          simp only [bind, Except.bind] at h
          cases ev with
          | none => simp [throw, throwThe, MonadExceptOf.throw] at h
          | some r =>
              cases r with
              | err m =>
                  simp only [pure, Except.pure, Except.ok.injEq, Sum.inl.injEq] at h
                  exact ⟨m, h.symm⟩
              | ok s2 ps2 =>
                  simp only [pure, Except.pure] at h
                  cases hrest : processCases p rest with
                  | error e => rw [hrest] at h; simp [bind, Except.bind] at h
                  | ok sub =>
                      rw [hrest] at h
                      cases sub with
                      | inl f2 =>
                          simp only [bind, Except.bind, pure, Except.pure,
                            Except.ok.injEq, Sum.inl.injEq] at h
                          obtain ⟨m, hm⟩ := ih f2 hrest
                          exact ⟨m, by rw [← h, hm]⟩
                      | inr tail =>
                          simp [bind, Except.bind, pure, Except.pure] at h

/-- The child loop of the logical branch: when every child compiles,
the collected pairs are the children's fragments in order.  (The
hypothesis `ih` is the inductive hypothesis of the main induction.) -/
theorem processCases_frag (p : Policy) (cs : List PyVal)
    (ih : ∀ c ∈ cs, ∀ t ps, logic_parse p c = .ok (some (.ok t ps)) →
      Frag p t ps ∧ (policyQFree p = true → nsb c = true → countQ t = ps.length))
    (data : List (String × List PyVal))
    (h : processCases p cs = .ok (.inr data)) :
    data.length = cs.length ∧ (∀ pr ∈ data, Frag p pr.1 pr.2) ∧
      (policyQFree p = true → nsbList cs = true →
        ∀ pr ∈ data, countQ pr.1 = pr.2.length) := by
  induction cs generalizing data with
  | nil =>
      unfold processCases at h
      simp only [pure, Except.pure, Except.ok.injEq, Sum.inr.injEq] at h
      subst h
      exact ⟨rfl, fun pr hpr => absurd hpr (List.not_mem_nil pr),
        fun _ _ pr hpr => absurd hpr (List.not_mem_nil pr)⟩
  | cons c rest ihl =>
      unfold processCases at h
      cases hlp : logic_parse p c with
      | error e => rw [hlp] at h; simp [bind, Except.bind] at h
      | ok ev =>
          rw [hlp] at h
          simp only [bind, Except.bind] at h
          cases ev with
          | none => simp [throw, throwThe, MonadExceptOf.throw] at h
          | some r =>
              cases r with
              | err m => simp [pure, Except.pure] at h
              | ok s2 ps2 =>
                  simp only [pure, Except.pure] at h
                  cases hrest : processCases p rest with
                  | error e => rw [hrest] at h; simp [bind, Except.bind] at h
                  | ok sub =>
                      rw [hrest] at h
                      cases sub with
                      | inl f2 => simp [bind, Except.bind, pure, Except.pure] at h
                      | inr tail =>
                          simp only [bind, Except.bind, pure, Except.pure,
                            Except.ok.injEq, Sum.inr.injEq] at h
                          subst h
                          obtain ⟨hlen, hfr, hcnt⟩ := ihl
                            (fun c2 hc2 t2 ps2 => ih c2 (List.mem_cons_of_mem _ hc2) t2 ps2)
                            tail hrest
                          have hc := ih c (List.mem_cons_self _ _) s2 ps2 hlp
                          refine ⟨by simp [hlen], ?_, ?_⟩
                          · intro pr hpr
                            rcases List.mem_cons.mp hpr with rfl | hpr2
                            · exact hc.1
                            · exact hfr pr hpr2
                          · intro hqf hnl pr hpr
                            have hnsb : nsb c = true ∧ nsbList rest = true := by
                              simpa [nsbList, Bool.and_eq_true] using hnl
                            rcases List.mem_cons.mp hpr with rfl | hpr2
                            · exact hc.2 hqf hnsb.1
                            · exact hcnt hqf hnsb.2 pr hpr2

/-- Main structure lemma for `logic_parse`, by strong induction on the
size of the input: every success is a `Frag`, and under a
question-mark-free policy and an input with no short `BETWEEN` string
operand, placeholders equal parameters. -/
theorem logic_parse_frag_aux (p : Policy) : ∀ (n : Nat) (j : PyVal), sizeOf j ≤ n →
    ∀ (t : String) (ps : List PyVal), logic_parse p j = .ok (some (.ok t ps)) →
    Frag p t ps ∧ (policyQFree p = true → nsb j = true → countQ t = ps.length) := by
  intro n
  induction n with
  | zero =>
      intro j hj
      exfalso
      cases j <;> simp at hj
  | succ n ihn =>
      intro j hj t ps h
      cases j with
      | none =>
          unfold logic_parse at h
          simp [pyLen, bind, Except.bind, throw, throwThe, MonadExceptOf.throw] at h
      | bool b =>
          unfold logic_parse at h
          simp [pyLen, bind, Except.bind, throw, throwThe, MonadExceptOf.throw] at h
      | int m =>
          unfold logic_parse at h
          simp [pyLen, bind, Except.bind, throw, throwThe, MonadExceptOf.throw] at h
      | str sv =>
          unfold logic_parse at h
          simp only [pyLen, bind, Except.bind, pure, Except.pure] at h
          split at h
          · simp at h
          · simp [throw, throwThe, MonadExceptOf.throw] at h
      | list xs =>
          unfold logic_parse at h
          simp only [pyLen, bind, Except.bind, pure, Except.pure] at h
          split at h
          · simp at h
          · simp [throw, throwThe, MonadExceptOf.throw] at h
      | tuple xs =>
          unfold logic_parse at h
          simp only [pyLen, bind, Except.bind, pure, Except.pure] at h
          split at h
          · simp at h
          · simp [throw, throwThe, MonadExceptOf.throw] at h
      | dict es =>
          cases es with
          | nil =>
              unfold logic_parse at h
              simp [pure, Except.pure] at h
          | cons e rest =>
              obtain ⟨value, jv⟩ := e
              unfold logic_parse at h
              by_cases hcat : is_value_in_allowed_categories p value = true
              case neg =>
                  rw [if_pos (by simpa using hcat)] at h
                  simp [pure, Except.pure] at h
              rw [if_neg (not_not_intro hcat)] at h
              by_cases hlg2 : (pyLOGICAL.contains value = true ∧ ¬ jv.isList = true)
              case pos =>
                  rw [if_pos hlg2] at h
                  simp [pure, Except.pure] at h
              rw [if_neg hlg2] at h
              simp only [bind, Except.bind] at h
              by_cases hcn : isColumnName p value = true
              · rw [if_pos hcn] at h
                cases hvc : is_valid_comparison p value jv with
                | error e2 =>
                    rw [hvc] at h
                    simp [bind, Except.bind] at h
                | ok v1 =>
                    rw [hvc] at h
                    simp only [bind, Except.bind, pure, Except.pure] at h
                    cases v1 with
                    | false =>
                        simp only [Bool.not_false, if_true] at h
                        exact absurd h (badComparisonMsg_no_ok p value jv t ps)
                    | true =>
                        simp only [Bool.not_true, Bool.false_eq_true, if_false,
                          if_true] at h
                        obtain ⟨s, operand, restj2, k, hjv, hmem2, hk, hv⟩ :=
                          ivc_ok_shape p value jv hvc
                        subst hjv
                        have hm := compile_comparison_master p value s operand
                          restj2 k t ps hk hmem2 hv h
                        refine ⟨hm.1, fun hqf hnsb => ?_⟩
                        simp only [nsb, nsbEntries, Bool.and_eq_true] at hnsb
                        exact hm.2 hqf hnsb.1.2.1.1
              · rw [if_neg hcn] at h
                simp only [bind, Except.bind, pure, Except.pure,
                  Bool.false_eq_true, if_false] at h
                cases hvc : is_valid_comparison p value jv with
                | error e2 =>
                    rw [hvc] at h
                    simp [bind, Except.bind] at h
                | ok v2 =>
                    rw [hvc] at h
                    simp only [bind, Except.bind, pure, Except.pure] at h
                    cases v2 with
                    | true =>
                        obtain ⟨s, operand, restj2, k, hjv, hmem2, hk, hv⟩ :=
                          ivc_ok_shape p value jv hvc
                        exact absurd (by simp [isColumnName, hk]) hcn
                    | false =>
                        simp only [Bool.false_eq_true, if_false] at h
                        by_cases hlgl : (pyLOGICAL.contains value = true ∧ jv.isList = true)
                        case neg =>
                            rw [if_neg hlgl] at h
                            simp [pure, Except.pure] at h
                        rw [if_pos hlgl] at h
                        cases jv with
                        | none => simp [PyVal.isList] at hlgl
                        | bool b2 => simp [PyVal.isList] at hlgl
                        | int m2 => simp [PyVal.isList] at hlgl
                        | str s2 => simp [PyVal.isList] at hlgl
                        | dict d2 => simp [PyVal.isList] at hlgl
                        | tuple t2 => simp [PyVal.isList] at hlgl
                        | list cases0 =>
                            split at h
                            rotate_left
                            · rename_i x2 hcontra
                              exact absurd rfl (hcontra cases0)
                            rename_i x2 xs2 heq2
                            injection heq2 with heq3
                            subst heq3
                            by_cases hlt : cases0.length < 2
                            case pos =>
                                rw [if_pos hlt] at h
                                simp [pure, Except.pure] at h
                            rw [if_neg hlt] at h
                            split at h
                            · simp at h
                            rename_i v2 hpc0
                            split at h
                            · rename_i safe
                              obtain ⟨m, hm⟩ := processCases_inl_err p cases0 safe hpc0
                              subst hm
                              simp at h
                            rename_i data
                            have hpc : processCases p cases0 =
                                .ok (.inr data) := hpc0
                            simp only [pure, Except.pure, Except.ok.injEq,
                              Option.some.injEq, joinLogicalResults,
                              PyResult.ok.injEq] at h
                            obtain ⟨ht, hps⟩ := h
                            have hsz : ∀ c ∈ cases0, sizeOf c ≤ n := by
                              intro c hc
                              have h1 := List.sizeOf_lt_of_mem hc
                              simp only [PyVal.dict.sizeOf_spec,
                                PyVal.list.sizeOf_spec, List.cons.sizeOf_spec,
                                Prod.mk.sizeOf_spec] at hj
                              omega
                            have hih : ∀ c ∈ cases0, ∀ t2 ps2,
                                logic_parse p c = .ok (some (.ok t2 ps2)) →
                                Frag p t2 ps2 ∧ (policyQFree p = true →
                                  nsb c = true → countQ t2 = ps2.length) :=
                              fun c hc t2 ps2 h2 => ihn c (hsz c hc) t2 ps2 h2
                            obtain ⟨hlen, hfr, hcnt⟩ :=
                              processCases_frag p cases0 hih data hpc
                            have hconn : value ∈ pyLOGICAL := by
                              simpa using hlgl.1
                            have h2len : 2 ≤ data.length := by omega
                            constructor
                            · rw [← ht, ← hps]
                              exact Frag.junction value data hconn h2len hfr
                            · intro hqf hnsb
                              rw [← ht, ← hps]
                              have hnsbl : nsbList cases0 = true := by
                                simp only [nsb, nsbEntries, nsbList,
                                  Bool.and_eq_true] at hnsb
                                exact hnsb.1.2
                              have hsep : countQ (" " ++ pyUpper value ++ " ") = 0 := by
                                fin_cases hconn <;> decide
                              have heach := hcnt hqf hnsbl
                              rw [countQ_append, countQ_append,
                                countQ_join_zero_sep _ hsep]
                              have hmapeq : ((data.map Prod.fst).map countQ) =
                                  ((data.map Prod.snd).map List.length) := by
                                rw [List.map_map, List.map_map]
                                refine List.map_congr_left ?_
                                intro pr hpr
                                exact hcnt hqf hnsbl pr hpr
                              rw [hmapeq]
                              have c5 : countQ "(" = 0 := by decide
                              have c6 : countQ ")" = 0 := by decide
                              rw [c5, c6, List.length_flatten]
                              omega

/-- Every successful `logic_parse` result is a whitelist-shaped
fragment; under a question-mark-free policy and an input with no
ill-sized string `BETWEEN` operand, its placeholders equal its
parameters. -/
theorem logic_parse_frag (p : Policy) (j : PyVal) (t : String) (ps : List PyVal)
    (h : logic_parse p j = .ok (some (.ok t ps))) :
    Frag p t ps ∧ (policyQFree p = true → nsb j = true → countQ t = ps.length) :=
  logic_parse_frag_aux p (sizeOf j) j le_rfl t ps h

/-- An entry of the items list as accepted by the loop of lines
342-365: either whitelisted as it stands (in `ALLOWED_ITEMS` or among
the table's permitted columns), or the in-place rendering of an
aggregate over a whitelisted argument. -/
def itemOK (p : Policy) (tcols : List PyVal) (item : PyVal) : Prop :=
  (pyMemStrList item p.items || pyMemValList item tcols) = true ∨
  ∃ f arg, f ∈ pyAGGREGATES ∧ item = .str (f ++ "(" ++ pyStrOf arg ++ ")") ∧
    (pyMemStrList arg p.items || pyMemValList arg tcols) = true

/-- The shape of every successful `sql_parse` text: a whitelisted query
keyword, the joined validated items, the fixed `FROM`, a whitelisted
table, and - when logic is present - a whitelisted connection keyword
followed by a `Frag`-shaped logic fragment carrying all the
parameters. -/
inductive TopFrag (p : Policy) : String → List PyVal → Prop where
  | noLogic (q : String) (tbl : String) (tcols : List PyVal)
      (items2 : List PyVal) (joined : String)
      (hq : q ∈ p.queries)
      (htbl : p.tables.lookup tbl = some tcols)
      (hitems : ∀ it ∈ items2, itemOK p tcols it)
      (hjoin : pyJoinVals "," items2 = .ok joined) :
      TopFrag p (q ++ " " ++ joined ++ " FROM " ++ tbl) []
  | withLogic (q : String) (tbl : String) (tcols : List PyVal)
      (items2 : List PyVal) (joined : String) (conn lt : String) (lps : List PyVal)
      (hq : q ∈ p.queries)
      (htbl : p.tables.lookup tbl = some tcols)
      (hitems : ∀ it ∈ items2, itemOK p tcols it)
      (hjoin : pyJoinVals "," items2 = .ok joined)
      (hconn : conn ∈ p.connections)
      (hfrag : Frag p lt lps) :
      TopFrag p (q ++ " " ++ joined ++ " FROM " ++ tbl ++ " " ++ conn ++ " " ++ lt) lps

theorem pyMemValList_exists (v : PyVal) (l : List PyVal)
    (h : pyMemValList v l = true) : ∃ x ∈ l, pyEq v x = true := by
  simpa [pyMemValList, List.any_eq_true] using h

theorem colEntry_render_qfree (v x : PyVal) (hx : colEntryQFree x = true)
    (he : pyEq v x = true) : countQ (pyStrOf v) = 0 := by
  cases x with
  | str s =>
      cases v with
      | str s2 =>
          have h2 : s2 = s := by simpa [pyEq] using he
          subst h2
          exact strQFree_countQ s2 (by simpa [strQFree, colEntryQFree] using hx)
      | none => simp [pyEq] at he
      | bool b => simp [pyEq] at he
      | int n => simp [pyEq] at he
      | list l2 => simp [pyEq] at he
      | tuple l2 => simp [pyEq] at he
      | dict d2 => simp [pyEq] at he
  | none =>
      cases v with
      | none => decide
      | str s2 => simp [pyEq] at he
      | bool b => simp [pyEq] at he
      | int n => simp [pyEq] at he
      | list l2 => simp [pyEq] at he
      | tuple l2 => simp [pyEq] at he
      | dict d2 => simp [pyEq] at he
  | bool b => simp [colEntryQFree] at hx
  | int n => simp [colEntryQFree] at hx
  | list l2 => simp [colEntryQFree] at hx
  | tuple l2 => simp [colEntryQFree] at hx
  | dict d2 => simp [colEntryQFree] at hx

/-- The components of a question-mark-free policy. -/
theorem qfree_parts (p : Policy) (hqf : policyQFree p = true) :
    (∀ q ∈ p.queries, countQ q = 0) ∧ (∀ it ∈ p.items, strQFree it = true) ∧
    (∀ e ∈ p.tables, countQ e.1 = 0 ∧ ∀ tc ∈ e.2, colEntryQFree tc = true) ∧
    (∀ c ∈ p.connections, countQ c = 0) := by
  simp only [policyQFree, Bool.and_eq_true, List.all_eq_true] at hqf
  obtain ⟨⟨⟨⟨hQ, hI⟩, hT⟩, hC⟩, _⟩ := hqf
  refine ⟨fun q hq => strQFree_countQ q (by simpa [strQFree] using hQ q hq),
    fun it hit => hI it hit, fun e he => ?_,
    fun c hc => strQFree_countQ c (by simpa [strQFree] using hC c hc)⟩
  have := hT e he
  simp only [Bool.and_eq_true, List.all_eq_true] at this
  exact ⟨strQFree_countQ e.1 (by simpa [strQFree] using this.1),
    fun tc htc => this.2 tc htc⟩

/-- A whitelisted or rewritten item renders without a question mark. -/
theorem itemOK_render_qfree (p : Policy) (tcols : List PyVal) (item : PyVal)
    (hqf : policyQFree p = true)
    (htc : ∀ tc ∈ tcols, colEntryQFree tc = true)
    (hok : itemOK p tcols item) : countQ (pyStrOf item) = 0 := by
  have hmem : ∀ (v : PyVal),
      (pyMemStrList v p.items || pyMemValList v tcols) = true →
      countQ (pyStrOf v) = 0 := by
    intro v hv
    rcases (Bool.or_eq_true _ _).mp hv with hv1 | hv2
    · obtain ⟨s2, hs2, hin⟩ := pyMemStrList_str v p.items hv1
      subst hs2
      exact strQFree_countQ s2 (by
        simpa [strQFree] using (qfree_parts p hqf).2.1 s2 hin)
    · obtain ⟨x, hx, he⟩ := pyMemValList_exists v tcols hv2
      exact colEntry_render_qfree v x (htc x hx) he
  rcases hok with h | ⟨f, arg, hf, hitem, harg⟩
  · exact hmem item h
  · subst hitem
    rw [show pyStrOf (PyVal.str (f ++ "(" ++ pyStrOf arg ++ ")")) =
        f ++ "(" ++ pyStrOf arg ++ ")" from rfl]
    have c2 : countQ "(" = 0 := by decide
    have c3 : countQ ")" = 0 := by decide
    have h1 : countQ f = 0 := agg_countQ f hf
    have h2 := hmem arg harg
    rw [countQ_append, countQ_append, countQ_append, c2, c3, h1, h2]

/-- Joining all-clean items with a comma stays clean. -/
theorem pyJoinVals_countQ (l : List PyVal) (out : String)
    (h : pyJoinVals "," l = .ok out)
    (hall : ∀ x ∈ l, countQ (pyStrOf x) = 0) : countQ out = 0 := by
  induction l generalizing out with
  | nil =>
      simp only [pyJoinVals, pure, Except.pure, Except.ok.injEq] at h
      rw [← h]
      decide
  | cons x rest ih =>
      cases x with
      | str s =>
          cases rest with
          | nil =>
              simp only [pyJoinVals, pure, Except.pure, Except.ok.injEq] at h
              rw [← h]
              exact hall (.str s) (List.mem_cons_self _ _)
          | cons y rest2 =>
              simp only [pyJoinVals, bind, Except.bind] at h
              cases hrec : pyJoinVals "," (y :: rest2) with
              | error e => rw [hrec] at h; simp at h
              | ok out2 =>
                  rw [hrec] at h
                  simp only [pure, Except.pure, Except.ok.injEq] at h
                  rw [← h]
                  have h1 : countQ s = 0 := hall (.str s) (List.mem_cons_self _ _)
                  have h2 := ih out2 hrec (fun z hz => hall z (List.mem_cons_of_mem _ hz))
                  have hcomma : countQ "," = 0 := by decide
                  rw [countQ_append, countQ_append, h1, h2, hcomma]
      | none =>
          cases rest with
          | nil => simp [pyJoinVals, throw, throwThe, MonadExceptOf.throw] at h
          | cons y r2 => simp [pyJoinVals, throw, throwThe, MonadExceptOf.throw] at h
      | bool b =>
          cases rest with
          | nil => simp [pyJoinVals, throw, throwThe, MonadExceptOf.throw] at h
          | cons y r2 => simp [pyJoinVals, throw, throwThe, MonadExceptOf.throw] at h
      | int n =>
          cases rest with
          | nil => simp [pyJoinVals, throw, throwThe, MonadExceptOf.throw] at h
          | cons y r2 => simp [pyJoinVals, throw, throwThe, MonadExceptOf.throw] at h
      | list l2 =>
          cases rest with
          | nil => simp [pyJoinVals, throw, throwThe, MonadExceptOf.throw] at h
          | cons y r2 => simp [pyJoinVals, throw, throwThe, MonadExceptOf.throw] at h
      | tuple l2 =>
          cases rest with
          | nil => simp [pyJoinVals, throw, throwThe, MonadExceptOf.throw] at h
          | cons y r2 => simp [pyJoinVals, throw, throwThe, MonadExceptOf.throw] at h
      | dict d2 =>
          cases rest with
          | nil => simp [pyJoinVals, throw, throwThe, MonadExceptOf.throw] at h
          | cons y r2 => simp [pyJoinVals, throw, throwThe, MonadExceptOf.throw] at h

theorem nsb_lookup (es : List (String × PyVal)) (k : String) (v : PyVal)
    (hes : nsbEntries es = true) (hl : es.lookup k = some v) : nsb v = true := by
  induction es with
  | nil => simp [List.lookup] at hl
  | cons e rest ih =>
      obtain ⟨k0, v0⟩ := e
      simp only [nsbEntries, Bool.and_eq_true] at hes
      by_cases h0 : (k == k0) = true
      · simp only [List.lookup, h0, if_true, Option.some.injEq] at hl
        rw [← hl]
        exact hes.1.2
      · have h0b : (k == k0) = false := by simpa using h0
        simp only [List.lookup, h0b, Bool.false_eq_true, if_false] at hl
        exact ih hes.2 hl

/-- The in-place rewrite of the items entry does not disturb the other
keys of the request dictionary. -/
theorem setItemsEntries_lookup_ne (es : List (String × PyVal)) (items2 : List PyVal)
    (k : String) (hk : (k == "items") = false) :
    (setItemsEntries es items2).lookup k = es.lookup k := by
  induction es with
  | nil => rfl
  | cons e rest ih =>
      obtain ⟨k0, v0⟩ := e
      by_cases h0 : (k0 == "items") = true
      · have h0b : k0 = "items" := by simpa using h0
        subst h0b
        rw [show setItemsEntries (("items", v0) :: rest) items2 =
            ("items", PyVal.list items2) :: rest from by simp [setItemsEntries]]
        simp only [List.lookup, hk, Bool.false_eq_true, if_false]
      · have h0b : (k0 == "items") = false := by simpa using h0
        rw [show setItemsEntries ((k0, v0) :: rest) items2 =
            (k0, v0) :: setItemsEntries rest items2 from by simp [setItemsEntries, h0b]]
        simp only [List.lookup, ih]

/-- When the item loop of lines 342-365 finishes with no failure, every
entry of the (possibly rewritten) list is whitelist-validated. -/
theorem itemsLoop_ok (p : Policy) (tcols : List PyVal) :
    ∀ (items items2 : List PyVal),
    itemsLoop p tcols items = .ok (items2, Option.none) →
    ∀ it ∈ items2, itemOK p tcols it := by
  intro items
  induction items with
  | nil =>
      intro items2 h
      unfold itemsLoop at h
      simp only [pure, Except.pure, Except.ok.injEq, Prod.mk.injEq] at h
      rw [← h.1]
      intro it hit
      exact absurd hit (List.not_mem_nil it)
  | cons item rest ih =>
      intro items2 h
      unfold itemsLoop at h
      by_cases hmem : (pyMemStrList item p.items || pyMemValList item tcols) = true
      · rw [if_pos hmem] at h
        simp only [bind, Except.bind] at h
        cases hrest : itemsLoop p tcols rest with
        | error e => rw [hrest] at h; simp at h
        | ok pr =>
            rw [hrest] at h
            obtain ⟨rest2, f⟩ := pr
            simp only [pure, Except.pure, Except.ok.injEq, Prod.mk.injEq] at h
            obtain ⟨h1, h2⟩ := h
            intro it hit
            rw [← h1] at hit
            rcases List.mem_cons.mp hit with rfl | hit2
            · exact Or.inl hmem
            · exact ih rest2 (by rw [hrest, h2]) it hit2
      · rw [if_neg hmem] at h
        split at h
        · simp [throw, throwThe, MonadExceptOf.throw] at h
        · rename_i kk arg restd
          by_cases hagg : pyAGGREGATES.contains kk = true
          · rw [if_pos hagg] at h
            by_cases hmem2 : (pyMemStrList arg p.items ||
                pyMemValList arg tcols) = true
            · rw [if_pos hmem2] at h
              simp only [bind, Except.bind] at h
              cases hrest : itemsLoop p tcols rest with
              | error e2 => rw [hrest] at h; simp at h
              | ok pr =>
                  rw [hrest] at h
                  obtain ⟨rest2, f⟩ := pr
                  simp only [pure, Except.pure, Except.ok.injEq, Prod.mk.injEq] at h
                  obtain ⟨h1, h2⟩ := h
                  intro it hit
                  rw [← h1] at hit
                  rcases List.mem_cons.mp hit with rfl | hit2
                  · exact Or.inr ⟨kk, arg, by simpa using hagg, rfl, hmem2⟩
                  · exact ih rest2 (by rw [hrest, h2]) it hit2
            · rw [if_neg hmem2] at h
              simp [pure, Except.pure] at h
          · rw [if_neg hagg] at h
            simp [pure, Except.pure] at h
        · simp [pure, Except.pure] at h

theorem lookup_any_key {es : List (String × PyVal)} {k : String} {v : PyVal}
    (h : es.lookup k = some v) : (es.any fun e => e.1 == k) = true := by
  have hm := lookup_mem h
  simp only [List.any_eq_true]
  exact ⟨(k, v), hm, by simp⟩

/-- Master lemma for `sql_parse`: every success is a `TopFrag`, and
under a question-mark-free policy and a request with no ill-sized
string `BETWEEN` operand, placeholders equal parameters. -/
theorem sql_parse_master (p : Policy) (j : PyVal) (t : String) (ps : List PyVal)
    (j2 : PyVal) (h : sql_parse p j = .ok (.ok t ps, j2)) :
    TopFrag p t ps ∧ (policyQFree p = true → nsb j = true →
      countQ t = ps.length) := by
  unfold sql_parse at h
  simp only [bind, Except.bind] at h
  split at h
  · exact Except.noConfusion h
  rename_i r hcr
  split at h
  · simp [pure, Except.pure] at h
  split at h
  · exact Except.noConfusion h
  rename_i q hq
  split at h
  · simp [pure, Except.pure] at h
  rename_i hqmem
  split at h
  · exact Except.noConfusion h
  rename_i tbl htbl
  split at h
  · simp [pure, Except.pure] at h
  rename_i htmem
  split at h
  · exact Except.noConfusion h
  rename_i itemsV hitemsV
  split at h
  rotate_left
  · exact Except.noConfusion h
  rename_i items0
  split at h
  · exact Except.noConfusion h
  rename_i pr hloop
  split at h
  · simp [pure, Except.pure] at h
  rename_i hfail
  obtain ⟨items2, failure⟩ := pr
  simp only at hfail
  subst hfail
  split at h
  · exact Except.noConfusion h
  rename_i hasConn hhc
  obtain ⟨es, hj, hqlk⟩ := pyGetStr_ok_dict j "query" q hq
  subst hj
  have hqmem2 : pyMemStrList q p.queries = true := by simpa using hqmem
  obtain ⟨qs, hqs, hqsin⟩ := pyMemStrList_str q p.queries hqmem2
  subst hqs
  have htmem2 : tableMem p tbl = true := by simpa using htmem
  have htshape : ∃ ts tcols0, tbl = PyVal.str ts ∧
      p.tables.lookup ts = some tcols0 := by
    cases tbl with
    | str ts =>
        simp only [tableMem, Option.isSome_iff_exists] at htmem2
        obtain ⟨tc, htc⟩ := htmem2
        exact ⟨ts, tc, rfl, htc⟩
    | none => simp [tableMem] at htmem2
    | bool b => simp [tableMem] at htmem2
    | int n => simp [tableMem] at htmem2
    | list l => simp [tableMem] at htmem2
    | tuple l => simp [tableMem] at htmem2
    | dict d => simp [tableMem] at htmem2
  obtain ⟨ts, tcols0, htts, htlk⟩ := htshape
  subst htts
  rw [show tableCols p (PyVal.str ts) = tcols0 from by
    simp [tableCols, htlk]] at hloop
  have hitems := itemsLoop_ok p tcols0 items0 items2 hloop
  have hred : setItems (PyVal.dict es) items2 =
      PyVal.dict (setItemsEntries es items2) := rfl
  cases hasConn with
  | false =>
      rw [if_neg Bool.false_ne_true] at h
      split at h
      · rename_i e9 hpf
        exact Except.noConfusion hpf
      rename_i v9 hpf
      have hv9 : false = v9 := Except.ok.inj hpf
      subst hv9
      rw [if_neg Bool.false_ne_true] at h
      split at h
      · exact Except.noConfusion h
      rename_i joined hjoin
      split at h
      · exact Except.noConfusion h
      rename_i hasLogic hhl
      cases hasLogic with
      | false =>
          rw [if_neg Bool.false_ne_true] at h
          simp only [pure, Except.pure, Except.ok.injEq, Prod.mk.injEq,
            PyResult.ok.injEq] at h
          obtain ⟨⟨ht, hps⟩, hj2⟩ := h
          refine ⟨?_, ?_⟩
          · rw [← ht, ← hps]
            exact TopFrag.noLogic qs ts tcols0 items2 joined hqsin htlk hitems hjoin
          · intro hqf hnsb
            rw [← ht, ← hps]
            obtain ⟨hQ, hI, hT, hC⟩ := qfree_parts p hqf
            have htcq : ∀ tc ∈ tcols0, colEntryQFree tc = true :=
              (hT (ts, tcols0) (lookup_mem htlk)).2
            have hqs0 : countQ qs = 0 := hQ qs hqsin
            have hts0 : countQ ts = 0 := (hT (ts, tcols0) (lookup_mem htlk)).1
            have hj0 : countQ joined = 0 := pyJoinVals_countQ items2 joined hjoin
              (fun x hx => itemOK_render_qfree p tcols0 x hqf htcq (hitems x hx))
            have c1 : countQ " " = 0 := by decide
            have cF : countQ " FROM " = 0 := by decide
            rw [show pyStrOf (PyVal.str qs) = qs from rfl,
              show pyStrOf (PyVal.str ts) = ts from rfl]
            rw [countQ_append, countQ_append, countQ_append, countQ_append,
              hqs0, hts0, hj0, c1, cF]
            simp
      | true =>
          rw [if_pos rfl] at h
          split at h
          · exact Except.noConfusion h
          rename_i lg hlg
          split at h
          · exact Except.noConfusion h
          rename_i ls hls
          split at h
          · exact Except.noConfusion h
          · simp [pure, Except.pure] at h
          rename_i lt lps
          split at h
          · exact Except.noConfusion h
          rename_i conn hconn2
          exfalso
          obtain ⟨es3, hj3, hclk⟩ :=
            pyGetStr_ok_dict _ "connection" conn hconn2
          rw [hred] at hj3
          have hes3 : setItemsEntries es items2 = es3 := by
            injection hj3
          rw [← hes3] at hclk
          rw [hred] at hhc
          simp only [pyContains, pure, Except.pure, Except.ok.injEq] at hhc
          rw [lookup_any_key hclk] at hhc
          exact Bool.noConfusion hhc
  | true =>
      rw [if_pos rfl] at h
      split at h
      · exact Except.noConfusion h
      rename_i c hc
      split at h
      · rename_i e9 hpf
        exact Except.noConfusion hpf
      rename_i v9 hpf
      have hv9 : (! pyMemStrList c p.connections) = v9 := Except.ok.inj hpf
      by_cases hcm : pyMemStrList c p.connections = true
      case neg =>
          have hcm2 : pyMemStrList c p.connections = false := by simpa using hcm
          rw [hcm2] at hv9
          subst hv9
          rw [if_pos (by decide)] at h
          split at h
          · exact Except.noConfusion h
          simp [pure, Except.pure] at h
      rw [hcm] at hv9
      subst hv9
      rw [if_neg (by decide)] at h
      split at h
      · exact Except.noConfusion h
      rename_i joined hjoin
      split at h
      · exact Except.noConfusion h
      rename_i hasLogic hhl
      cases hasLogic with
      | false =>
          rw [if_neg Bool.false_ne_true] at h
          simp only [pure, Except.pure, Except.ok.injEq, Prod.mk.injEq,
            PyResult.ok.injEq] at h
          obtain ⟨⟨ht, hps⟩, hj2⟩ := h
          refine ⟨?_, ?_⟩
          · rw [← ht, ← hps]
            exact TopFrag.noLogic qs ts tcols0 items2 joined hqsin htlk hitems hjoin
          · intro hqf hnsb
            rw [← ht, ← hps]
            obtain ⟨hQ, hI, hT, hC⟩ := qfree_parts p hqf
            have htcq : ∀ tc ∈ tcols0, colEntryQFree tc = true :=
              (hT (ts, tcols0) (lookup_mem htlk)).2
            have hqs0 : countQ qs = 0 := hQ qs hqsin
            have hts0 : countQ ts = 0 := (hT (ts, tcols0) (lookup_mem htlk)).1
            have hj0 : countQ joined = 0 := pyJoinVals_countQ items2 joined hjoin
              (fun x hx => itemOK_render_qfree p tcols0 x hqf htcq (hitems x hx))
            have c1 : countQ " " = 0 := by decide
            have cF : countQ " FROM " = 0 := by decide
            rw [show pyStrOf (PyVal.str qs) = qs from rfl,
              show pyStrOf (PyVal.str ts) = ts from rfl]
            rw [countQ_append, countQ_append, countQ_append, countQ_append,
              hqs0, hts0, hj0, c1, cF]
            simp
      | true =>
          rw [if_pos rfl] at h
          split at h
          · exact Except.noConfusion h
          rename_i lg hlg
          split at h
          · exact Except.noConfusion h
          rename_i ls hls
          split at h
          · exact Except.noConfusion h
          · simp [pure, Except.pure] at h
          rename_i lt lps
          split at h
          · rename_i e9 hpf2
            exact Except.noConfusion hpf2
          rename_i conn hconn2
          have hceq : c = conn := Except.ok.inj hconn2
          subst hceq
          simp only [pure, Except.pure, Except.ok.injEq, Prod.mk.injEq,
            PyResult.ok.injEq] at h
          obtain ⟨⟨ht, hps⟩, hj2⟩ := h
          obtain ⟨cs, hcs, hcsin⟩ := pyMemStrList_str c p.connections hcm
          subst hcs
          have hlf := logic_parse_frag p lg lt lps hls
          refine ⟨?_, ?_⟩
          · rw [← ht, ← hps]
            exact TopFrag.withLogic qs ts tcols0 items2 joined cs lt lps
              hqsin htlk hitems hjoin hcsin hlf.1
          · intro hqf hnsb
            rw [← ht, ← hps]
            obtain ⟨es3, hj3, hllk⟩ := pyGetStr_ok_dict _ "logic" lg hlg
            rw [hred] at hj3
            have hes3 : setItemsEntries es items2 = es3 := by
              injection hj3
            rw [← hes3] at hllk
            have hlk2 : es.lookup "logic" = some lg := by
              rw [← setItemsEntries_lookup_ne es items2 "logic" (by decide)]
              exact hllk
            have hnsbE : nsbEntries es = true := by simpa [nsb] using hnsb
            have hnlg : nsb lg = true := nsb_lookup es "logic" lg hnsbE hlk2
            have hltc : countQ lt = lps.length := hlf.2 hqf hnlg
            obtain ⟨hQ, hI, hT, hC⟩ := qfree_parts p hqf
            have htcq : ∀ tc ∈ tcols0, colEntryQFree tc = true :=
              (hT (ts, tcols0) (lookup_mem htlk)).2
            have hqs0 : countQ qs = 0 := hQ qs hqsin
            have hts0 : countQ ts = 0 := (hT (ts, tcols0) (lookup_mem htlk)).1
            have hj0 : countQ joined = 0 := pyJoinVals_countQ items2 joined hjoin
              (fun x hx => itemOK_render_qfree p tcols0 x hqf htcq (hitems x hx))
            have hcs0 : countQ cs = 0 := hC cs hcsin
            have c1 : countQ " " = 0 := by decide
            have cF : countQ " FROM " = 0 := by decide
            rw [show pyStrOf (PyVal.str qs) = qs from rfl,
              show pyStrOf (PyVal.str ts) = ts from rfl,
              show pyStrOf (PyVal.str cs) = cs from rfl]
            rw [countQ_append, countQ_append, countQ_append, countQ_append,
              countQ_append, countQ_append, countQ_append, countQ_append,
              hqs0, hts0, hj0, hcs0, c1, cF, hltc]
            omega

/-- A Scenario A request with no logic clause. -/
def noLogicRequest : PyVal :=
  .dict [("query", .str "SELECT"), ("items", .list [.str "*"]),
         ("table", .str "images")]

/-- C4 (amended): on every successful compilation the SQL text is
assembled exclusively from whitelist-validated identifiers, fixed SQL
tokens and question-mark placeholders (`Frag` for `logic_parse`,
`TopFrag` for `sql_parse`); literal operands are carried in the
parameter tuple, never concatenated into the text. -/
theorem claim_C4_amended (p : Policy) (j : PyVal) (t : String) (ps : List PyVal) :
    (logic_parse p j = .ok (some (.ok t ps)) → Frag p t ps) ∧
    (∀ j2, sql_parse p j = .ok (.ok t ps, j2) → TopFrag p t ps) :=
  ⟨fun h => (logic_parse_frag p j t ps h).1,
   fun j2 h => (sql_parse_master p j t ps j2 h).1⟩

/-- Witness for C4 at the Scenario A policy on a no-logic request. -/
theorem claim_C4_amended_witness :
    TopFrag scenarioPolicy "SELECT * FROM images" [] :=
  (claim_C4_amended scenarioPolicy noLogicRequest "SELECT * FROM images" []).2
    noLogicRequest rfl

/-- C1 (amended): for a policy whose whitelisted identifier strings
contain no question mark, and an input in which no `BETWEEN` entry has
a string operand of length other than 2, every successful compilation
returns SQL text whose `?` count equals the parameter tuple length. -/
theorem claim_C1_amended (p : Policy) (j : PyVal) (t : String) (ps : List PyVal)
    (hqf : policyQFree p = true) (hnsb : nsb j = true) :
    (logic_parse p j = .ok (some (.ok t ps)) → countQ t = ps.length) ∧
    (∀ j2, sql_parse p j = .ok (.ok t ps, j2) → countQ t = ps.length) :=
  ⟨fun h => (logic_parse_frag p j t ps h).2 hqf hnsb,
   fun j2 h => (sql_parse_master p j t ps j2 h).2 hqf hnsb⟩

/-- Witness for C1 at the Scenario A policy on a one-comparison logic
node: one placeholder, one parameter. -/
theorem claim_C1_amended_witness :
    countQ "creature = ?" = [PyVal.str "owlbear"].length :=
  (claim_C1_amended scenarioPolicy leafCreature "creature = ?"
    [.str "owlbear"] rfl rfl).1 ev_leafCreature
